import Mathlib

/-
Verification of the environment metadata store of the kubecfg repository
(package metadata: CreateEnvironment, GetEnvironments, DeleteEnvironment,
generateSpecData), against its natural-language specification.

The filesystem abstracted by afero is modelled as a finite collection of
directories and files; paths are lists of name segments relative to the
environments root directory.  Byte slices are modelled as strings.  The
fragment of encoding/json used by the store (MarshalIndent of the
one-field EnvironmentSpec struct and Unmarshal into it) is embedded at
the character level, including the HTML-escaping string encoder and the
string unescaper with surrogate handling.
-/

namespace Kubecfg

deriving instance DecidableEq for Except

/-! ### Character and string helpers -/

/-- Test whether the first list is an initial run of the second,
comparing characters.  This embeds the Go strings.HasSuffix test used by
strings.TrimSuffix (applied to reversed lists) and string comparison of
paths. -/
def listLead : List Char → List Char → Bool
  | [], _ => true
  | _ :: _, [] => false
  | a :: as, b :: bs => a == b && listLead as bs

/-- Embeds strings.HasPrefix at the character-list level. -/
def strLead (pre s : String) : Bool := listLead pre.data s.data

/-- Embeds strings.TrimSuffix: drop the suffix when present, otherwise
return the string unchanged. -/
def trimSuffixStr (s suf : String) : String :=
  if listLead suf.data.reverse s.data.reverse then
    String.mk (s.data.take (s.data.length - suf.data.length))
  else s

/-- Split a character list at the slash character.  Auxiliary for
splitOnSlash, accumulating the current segment. -/
def splitSlashAux : List Char → List Char → List String
  | acc, [] => [String.mk acc.reverse]
  | acc, c :: rest =>
    if c == '/' then String.mk acc.reverse :: splitSlashAux [] rest
    else splitSlashAux (c :: acc) rest

/-- Embeds strings.Split(s, "/"). -/
def splitOnSlash (s : String) : List String := splitSlashAux [] s.data

/-- Join path segments with slashes; the empty list yields the empty
string.  This is the name that GetEnvironments computes for a walked
path via strings.TrimPrefix of the root followed by filepath.Clean
(the identity on the canonical, already-clean relative paths produced
by the filesystem walk). -/
def joinSegs : List String → String
  | [] => ""
  | [s] => s
  | s :: rest => s ++ "/" ++ joinSegs rest

/-- Lexicographic comparison of characters by code point. -/
def charsLe : List Char → List Char → Bool
  | [], _ => true
  | _ :: _, [] => false
  | a :: as, b :: bs =>
    if a.toNat < b.toNat then true
    else if b.toNat < a.toNat then false
    else charsLe as bs

/-- Lexicographic comparison of relative paths, segment by segment; a
parent directory sorts before everything beneath it, matching the
lexical visiting order of the afero filesystem walk. -/
def pathLe : List String → List String → Bool
  | [], _ => true
  | _ :: _, [] => false
  | a :: as, b :: bs =>
    if a == b then pathLe as bs
    else charsLe a.data b.data

/-- All initial runs of a segment list, from the empty path (the
environments root) up to the full path.  These are the directories that
MkdirAll brings into existence. -/
def initsOf : List String → List (List String)
  | [] => [[]]
  | s :: rest => [] :: (initsOf rest).map (s :: ·)

/-! ### JSON encoding (the encoding/json fragment used by the store) -/

/-- Lower-case hexadecimal digit characters, as used by the encoding/json
string escaper. -/
def toHexDigit (n : Nat) : Char :=
  match n with
  | 0 => '0' | 1 => '1' | 2 => '2' | 3 => '3'
  | 4 => '4' | 5 => '5' | 6 => '6' | 7 => '7'
  | 8 => '8' | 9 => '9' | 10 => 'a' | 11 => 'b'
  | 12 => 'c' | 13 => 'd' | 14 => 'e' | _ => 'f'

/-- Numeric value of a hexadecimal digit character, upper or lower case. -/
def hexDigitVal (c : Char) : Option Nat :=
  let n := c.toNat
  if 48 ≤ n && n ≤ 57 then some (n - 48)
  else if 97 ≤ n && n ≤ 102 then some (n - 87)
  else if 65 ≤ n && n ≤ 70 then some (n - 55)
  else none

/-- Escape one character the way the encoding/json encoder does with
HTML escaping active: quote, backslash, newline, carriage return and
tab get two-character escapes; other control characters and the HTML
characters get a lower-case u00xx escape; the line and paragraph
separators get u2028 and u2029; everything else is emitted verbatim. -/
def escapeChar (c : Char) : List Char :=
  if c == '"' then ['\\', '"']
  else if c == '\\' then ['\\', '\\']
  else if c == '\n' then ['\\', 'n']
  else if c == '\r' then ['\\', 'r']
  else if c == '\t' then ['\\', 't']
  else if c.toNat < 32 || c == '<' || c == '>' || c == '&' then
    ['\\', 'u', '0', '0', toHexDigit (c.toNat / 16), toHexDigit (c.toNat % 16)]
  else if c.toNat == 8232 || c.toNat == 8233 then
    ['\\', 'u', '2', '0', '2', toHexDigit (c.toNat % 16)]
  else [c]

/-- Escape every character of a string body. -/
def escapeList (cs : List Char) : List Char :=
  cs.foldr (fun c acc => escapeChar c ++ acc) []

/-- A JSON string literal: the escaped body between double quotes. -/
def quoteJSON (s : String) : String :=
  String.mk ('"' :: (escapeList s.data ++ ['"']))

/-- Embeds generateSpecData: json.MarshalIndent of EnvironmentSpec
with an empty line prefix and a two-space indent, so the descriptor text
is an object holding the single key uri. -/
def generateSpecData (uri : String) : String :=
  "\x7b\n  \"uri\": " ++ quoteJSON uri ++ "\n\x7d"

/-! ### JSON decoding (the encoding/json fragment used by Unmarshal) -/

/-- The whitespace characters which the JSON scanner skips. -/
def isJSONSpace (c : Char) : Bool :=
  c == ' ' || c == '\t' || c == '\n' || c == '\r'

/-- Skip leading JSON whitespace. -/
def skipWS (cs : List Char) : List Char := cs.dropWhile isJSONSpace

/-- Prepend a decoded code unit to a unit-scan result. -/
def consUnit (n : Nat) (o : Option (List Nat × List Char)) :
    Option (List Nat × List Char) :=
  o.map (fun pr => (n :: pr.1, pr.2))

/-- Scan the body of a JSON string literal, the cursor standing just
after the opening quote, into UTF-16-style code units: each two-character
escape and each uXXXX escape yields its numeric value (possibly a
surrogate half), every other character yields its code point.  Raw
control characters and unknown escapes are rejected, as the encoding/json
scanner does.  Returns the units and the input after the closing quote. -/
def strUnits : List Char → Option (List Nat × List Char)
  | [] => none
  | c :: rest =>
    if c == '"' then some ([], rest)
    else if c == '\\' then
      match rest with
      | [] => none
      | e :: r =>
        if e == '"' then consUnit 34 (strUnits r)
        else if e == '\\' then consUnit 92 (strUnits r)
        else if e == '/' then consUnit 47 (strUnits r)
        else if e == 'b' then consUnit 8 (strUnits r)
        else if e == 'f' then consUnit 12 (strUnits r)
        else if e == 'n' then consUnit 10 (strUnits r)
        else if e == 'r' then consUnit 13 (strUnits r)
        else if e == 't' then consUnit 9 (strUnits r)
        else if e == 'u' then
          match r with
          | h1 :: h2 :: h3 :: h4 :: r2 =>
            match hexDigitVal h1, hexDigitVal h2, hexDigitVal h3, hexDigitVal h4 with
            | some a, some b, some c2, some d =>
              consUnit (((a * 16 + b) * 16 + c2) * 16 + d) (strUnits r2)
            | _, _, _, _ => none
          | _ => none
        else none
    else if c.toNat < 32 then none
    else consUnit c.toNat (strUnits rest)

/-- Test for a UTF-16 surrogate code unit. -/
def isSurrogateUnit (n : Nat) : Bool := 55296 ≤ n && n < 57344

/-- Combine scanned code units into characters the way the encoding/json
unquoter pairs UTF-16 surrogates: a high surrogate followed immediately
by a low surrogate becomes the combined code point; any surrogate not in
such a pair becomes U+FFFD and scanning resumes at the next unit.  A raw
character can never be a surrogate, so only escaped units pair up. -/
def combineUnits : List Nat → List Char
  | [] => []
  | [n] => if isSurrogateUnit n then [Char.ofNat 65533] else [Char.ofNat n]
  | n :: m :: rest =>
    if isSurrogateUnit n then
      if n < 56320 && (56320 ≤ m && m < 57344) then
        Char.ofNat (65536 + (n - 55296) * 1024 + (m - 56320)) :: combineUnits rest
      else Char.ofNat 65533 :: combineUnits (m :: rest)
    else Char.ofNat n :: combineUnits (m :: rest)

/-- Decode the body of a JSON string literal: scan escapes into code
units, then combine surrogate pairs.  Mirrors the encoding/json
unquoter. -/
def parseStrBody (cs : List Char) : Option (List Char × List Char) :=
  (strUnits cs).map (fun pr => (combineUnits pr.1, pr.2))

/-- Characters that may continue a JSON number once it has started. -/
def isNumChar (c : Char) : Bool :=
  ('0' ≤ c && c ≤ '9') || c == '-' || c == '+' || c == '.' || c == 'e' || c == 'E'

/-- Mode of the generic value skipper: a single value, the members of an
object, or the elements of an array. -/
inductive SkipMode where
  | value : SkipMode
  | members : Bool → SkipMode
  | elems : Bool → SkipMode
deriving DecidableEq

/-- Skip one JSON value (or the remaining members or elements of a
container), returning the rest of the input.  Fueled so that the
recursion is structural; the store always supplies fuel exceeding the
input length.  This embeds how Unmarshal scans the values of object
fields that the target struct does not recognize. -/
def skipJSON : Nat → SkipMode → List Char → Option (List Char)
  | 0, _, _ => none
  | f + 1, SkipMode.value, cs =>
    match skipWS cs with
    | [] => none
    | c :: rest =>
      if c == '"' then (parseStrBody rest).map (fun pr => pr.2)
      else if c == '\x7b' then skipJSON f (SkipMode.members true) rest
      else if c == '[' then skipJSON f (SkipMode.elems true) rest
      else if c == 'n' then
        match rest with
        | 'u' :: 'l' :: 'l' :: r => some r
        | _ => none
      else if c == 't' then
        match rest with
        | 'r' :: 'u' :: 'e' :: r => some r
        | _ => none
      else if c == 'f' then
        match rest with
        | 'a' :: 'l' :: 's' :: 'e' :: r => some r
        | _ => none
      else if c == '-' || ('0' ≤ c && c ≤ '9') then
        some (rest.dropWhile isNumChar)
      else none
  | f + 1, SkipMode.members allowEnd, cs =>
    match skipWS cs with
    | [] => none
    | c :: rest =>
      if c == '\x7d' then if allowEnd then some rest else none
      else if c == '"' then
        match parseStrBody rest with
        | none => none
        | some (_, r1) =>
          match skipWS r1 with
          | ':' :: r2 =>
            match skipJSON f SkipMode.value r2 with
            | none => none
            | some r3 =>
              match skipWS r3 with
              | ',' :: r4 => skipJSON f (SkipMode.members false) r4
              | '\x7d' :: r4 => some r4
              | _ => none
          | _ => none
      else none
  | f + 1, SkipMode.elems allowEnd, cs =>
    match skipWS cs with
    | [] => none
    | c :: rest =>
      if c == ']' then if allowEnd then some rest else none
      else
        match skipJSON f SkipMode.value (c :: rest) with
        | none => none
        | some r1 =>
          match skipWS r1 with
          | ',' :: r2 => skipJSON f (SkipMode.elems false) r2
          | ']' :: r2 => some r2
          | _ => none

/-- Shape of a parsed field value as far as Unmarshal into the
EnvironmentSpec struct cares: a decoded string, the null literal (which
leaves the target field untouched), or any other value. -/
inductive JSONTok where
  | str : List Char → JSONTok
  | null : JSONTok
  | other : JSONTok
deriving DecidableEq

/-- Parse one field value: strings and null are recognized exactly, any
other well-formed value is skipped generically. -/
def parseValue (fuel : Nat) (cs : List Char) : Option (JSONTok × List Char) :=
  match skipWS cs with
  | [] => none
  | c :: rest =>
    if c == '"' then (parseStrBody rest).map (fun pr => (JSONTok.str pr.1, pr.2))
    else if c == 'n' then
      match rest with
      | 'u' :: 'l' :: 'l' :: r => some (JSONTok.null, r)
      | _ => none
    else (skipJSON fuel SkipMode.value (c :: rest)).map (fun r => (JSONTok.other, r))

/-! ### The environment data model (type metadata.Environment) -/

/-- Embeds type Environment: the Path on disk, the slash-separated Name
and the target cluster URI. -/
structure Environment where
  Path : String
  Name : String
  URI : String
deriving DecidableEq

/-- Embeds type EnvironmentSpec, the descriptor struct with the single
field URI carrying the json tag uri. -/
structure EnvironmentSpec where
  URI : String
deriving DecidableEq

/-- ASCII lower-casing of one character, for the case-insensitive field
name match of encoding/json. -/
def asciiLowerChar (c : Char) : Char :=
  if 65 ≤ c.toNat && c.toNat ≤ 90 then Char.ofNat (c.toNat + 32) else c

/-- Does an object key address the uri field?  Unmarshal matches the
json tag exactly or, failing that, ASCII case-insensitively. -/
def keyIsURI (key : List Char) : Bool := key.map asciiLowerChar == "uri".data

/-- Apply one parsed object member to the EnvironmentSpec being built:
the uri key takes a string (null leaves the field untouched, any other
value is a type error); unknown keys are ignored. -/
def applyField (acc : EnvironmentSpec) (key : List Char) (tok : JSONTok) :
    Option EnvironmentSpec :=
  if keyIsURI key then
    match tok with
    | JSONTok.str s => some ⟨String.mk s⟩
    | JSONTok.null => some acc
    | JSONTok.other => none
  else some acc

/-- Parse the members of the top-level descriptor object, the cursor
standing just after the opening brace (or after a comma when allowEnd is
false), folding each member into the EnvironmentSpec.  Fueled so the
recursion is structural; the caller supplies fuel exceeding the input
length. -/
def parseObjectFields :
    Nat → List Char → EnvironmentSpec → Bool → Option (EnvironmentSpec × List Char)
  | 0, _, _, _ => none
  | f + 1, cs, acc, allowEnd =>
    match skipWS cs with
    | [] => none
    | c :: rest =>
      if c == '\x7d' then if allowEnd then some (acc, rest) else none
      else if c == '"' then
        match parseStrBody rest with
        | none => none
        | some (key, r1) =>
          match skipWS r1 with
          | ':' :: r2 =>
            match parseValue f r2 with
            | none => none
            | some (tok, r3) =>
              match applyField acc key tok with
              | none => none
              | some acc2 =>
                match skipWS r3 with
                | ',' :: r4 => parseObjectFields f r4 acc2 false
                | '\x7d' :: r4 => some (acc2, r4)
                | _ => none
          | _ => none
      else none

/-- Embeds json.Unmarshal(content, EnvironmentSpec): the top-level value
must be an object (whose members are folded into the struct, unknown
members ignored) or the null literal (which leaves the zero value);
anything else, malformed JSON, or trailing input is an error. -/
def unmarshalEnvironmentSpec (content : String) : Except String EnvironmentSpec :=
  match skipWS content.data with
  | [] => Except.error "unexpected end of JSON input"
  | c :: rest =>
    if c == '\x7b' then
      match parseObjectFields (content.data.length + 1) rest ⟨""⟩ true with
      | none => Except.error "invalid descriptor JSON"
      | some (sp, r1) =>
        if (skipWS r1).isEmpty then Except.ok sp
        else Except.error "invalid character after top-level value"
    else if c == 'n' then
      match rest with
      | 'u' :: 'l' :: 'l' :: r =>
        if (skipWS r).isEmpty then Except.ok ⟨""⟩
        else Except.error "invalid character after top-level value"
      | _ => Except.error "invalid character looking for beginning of value"
    else Except.error "cannot unmarshal value into Go struct EnvironmentSpec"

/-! ### The filesystem model

The afero filesystem seen by the manager is modelled as a finite set of
directories and of files with contents.  A path is the list of its name
segments relative to the environments directory of the manager; the
empty list is the environments root itself.  -/

/-- Constant schemaFilename of the source. -/
def schemaFilename : String := "swagger.json"

/-- Constant extensionsLibFilename of the source. -/
def extensionsLibFilename : String := "k.libsonnet"

/-- Constant k8sLibFilename of the source. -/
def k8sLibFilename : String := "k8s.libsonnet"

/-- Constant specFilename of the source: the descriptor file name. -/
def specFilename : String := "spec.json"

/-- The absolute path of the environments root directory
(field environmentsDir of the manager), as an abstract constant. -/
def envRootStr : String := "/environments"

/-- A snapshot of the filesystem under the environments root. -/
structure FS where
  dirs : List (List String)
  files : List (List String × String)
deriving DecidableEq

/-- Embeds afero.IsDir. -/
def FS.isDir (fs : FS) (p : List String) : Bool := fs.dirs.contains p

/-- Content of the file at a path, when a file lives there. -/
def FS.fileContent (fs : FS) (p : List String) : Option String :=
  (fs.files.find? (fun e => e.1 == p)).map (fun e => e.2)

/-- Is there a file (not a directory) at the path? -/
def FS.isFile (fs : FS) (p : List String) : Bool := (fs.fileContent p).isSome

/-- Embeds afero.Exists: true for a file or a directory. -/
def FS.existsNode (fs : FS) (p : List String) : Bool := fs.isDir p || fs.isFile p

/-- Embeds MkdirAll: brings the directory and every missing ancestor
into existence; succeeds when they already exist. -/
def FS.mkdirAll (fs : FS) (p : List String) : FS :=
  { fs with dirs := fs.dirs ++ (initsOf p).filter (fun q => !(fs.dirs.contains q)) }

/-- Embeds afero.WriteFile: create or overwrite the file at the path. -/
def FS.writeFile (fs : FS) (p : List String) (content : String) : FS :=
  { fs with files := fs.files.filter (fun e => !(e.1 == p)) ++ [(p, content)] }

/-- The absolute path string of a node, environmentsRoot joined with the
relative segments.  For the root itself it is the root path. -/
def nodeStr (p : List String) : String :=
  match p with
  | [] => envRootStr
  | _ => envRootStr ++ "/" ++ joinSegs p

/-- Embeds RemoveAll with a string argument: every node whose absolute
path equals the target, or lies strictly beneath it, disappears;
removing a missing path is a no-op, as in Go. -/
def FS.removeAllStr (fs : FS) (target : String) : FS :=
  { dirs := fs.dirs.filter
      (fun p => !(nodeStr p == target || strLead (target ++ "/") (nodeStr p))),
    files := fs.files.filter
      (fun e => !(nodeStr e.1 == target || strLead (target ++ "/") (nodeStr e.1))) }

/-- The nodes visited by afero.Walk from the environments root: every
directory and file, in lexical path order. -/
def FS.walkNodes (fs : FS) : List (List String) :=
  List.insertionSort (fun p q => pathLe p q = true)
    (fs.dirs ++ fs.files.map (fun e => e.1))

/-! ### The environment store operations -/

/-- The name GetEnvironments derives for a walked path:
filepath.Clean(strings.TrimPrefix(path, environmentsDir + "/")).  For a
path strictly beneath the root the trim leaves the relative slash-joined
segments, on which Clean is the identity because walked paths are
already clean; for the root itself the trim does not fire and the name
is the (clean) root path. -/
def envNameOf (p : List String) : String :=
  match p with
  | [] => envRootStr
  | _ => joinSegs p

/-- The walk callback of GetEnvironments at one visited path: only a
directory that holds a descriptor file emits an Environment; the
descriptor is read (reading fails when spec.json is itself a directory)
and JSON-decoded, and any error aborts the walk. -/
def visitEnv (fs : FS) (envs : List Environment) (p : List String) :
    Except String (List Environment) :=
  if fs.isDir p then
    if fs.existsNode (p ++ [specFilename]) then
      match fs.fileContent (p ++ [specFilename]) with
      | none => Except.error "read spec.json: is a directory"
      | some content =>
        match unmarshalEnvironmentSpec content with
        | Except.error e => Except.error e
        | Except.ok sp =>
          Except.ok (envs ++ [{ Path := nodeStr p, Name := envNameOf p, URI := sp.URI }])
    else Except.ok envs
  else Except.ok envs

/-- Embeds GetEnvironments: walk every node under the environments root
in lexical order, folding the callback; the first error aborts the walk
and is returned with no list (walking a missing root fails at once). -/
def GetEnvironments (fs : FS) : Except String (List Environment) :=
  if fs.isDir [] then (fs.walkNodes).foldlM (visitEnv fs) []
  else Except.error "walk: environments root does not exist"

/-- Embeds CreateEnvironment.  The name is given as its path segments
(appendToAbsPath joins them under the environments root); the schema
bytes spec.data() returned are the specData argument.  Returns the new
filesystem and the ordered trace of artifact file writes. -/
def CreateEnvironment (fs : FS) (name : List String)
    (uri specData extensionsLibData k8sLibData : String) :
    FS × List (List String) :=
  let envPath := name
  let fs1 := fs.mkdirAll envPath
  let schemaPath := envPath ++ [schemaFilename]
  let fs2 := fs1.writeFile schemaPath specData
  let k8sLibPath := envPath ++ [k8sLibFilename]
  let fs3 := fs2.writeFile k8sLibPath k8sLibData
  let extensionsLibPath := envPath ++ [extensionsLibFilename]
  let fs4 := fs3.writeFile extensionsLibPath extensionsLibData
  let envSpecData := generateSpecData uri
  let envSpecPath := envPath ++ [specFilename]
  (fs4.writeFile envSpecPath envSpecData,
   [schemaPath, k8sLibPath, extensionsLibPath, envSpecPath])

/-- The filesystem after CreateEnvironment has made the directory and
then only the first k of its four artifact writes have succeeded (the
next write failing): a failure prefix of the create sequence. -/
def CreateEnvironmentUpTo (fs : FS) (name : List String)
    (uri specData extensionsLibData k8sLibData : String) (k : Nat) : FS :=
  (List.take k
      [(name ++ [schemaFilename], specData),
       (name ++ [k8sLibFilename], k8sLibData),
       (name ++ [extensionsLibFilename], extensionsLibData),
       (name ++ [specFilename], generateSpecData uri)]).foldl
    (fun acc e => acc.writeFile e.1 e.2) (fs.mkdirAll name)

/-- Outcome of DeleteEnvironment: normal return, error return, or a Go
runtime panic (the filesystem as of that moment is carried along). -/
inductive DeleteOutcome where
  | ok : FS → DeleteOutcome
  | err : String → FS → DeleteOutcome
  | panicked : String → FS → DeleteOutcome
deriving DecidableEq

/-- Embeds the loop for _, env := range envs with body
allEnvPaths[env.Path] = env on the variable declared by
var allEnvPaths map[string]x2aEnvironment: the map starts nil, a lookup
on a nil map yields the zero value, but the first assignment to a nil
map is a runtime panic, modelled by the none result. -/
def buildEnvPathMap :
    Option (List (String × Environment)) → List Environment →
    Option (Option (List (String × Environment)))
  | m, [] => some m
  | m, env :: rest =>
    match m with
    | none => none
    | some entries => buildEnvPathMap (some ((env.Path, env) :: entries)) rest

/-- Lookup in the (possibly nil) map, newest entry first. -/
def mapLookup (m : Option (List (String × Environment))) (key : String) :
    Option Environment :=
  match m with
  | none => none
  | some entries => (entries.find? (fun e => e.1 == key)).map (fun e => e.2)

/-- One iteration of the ancestor walk of DeleteEnvironment at segment
dirs[i]: parentDir := strings.TrimSuffix(name, "/" + dirs[i]); the inner
range loop over envs only executes continue, so it has no effect; then
RemoveAll(appendToAbsPath(environmentsDir, parentDir)) runs
unconditionally. -/
def pruneOnce (fs : FS) (name seg : String) : FS :=
  let parentDir := trimSuffixStr name ("/" ++ seg)
  fs.removeAllStr (envRootStr ++ "/" ++ parentDir)

/-- Embeds DeleteEnvironment of the functional source version:
list the environments, build the path map (a panic as soon as envs is
non-empty, because the map is nil), fail when the mapped path is not a
key, otherwise remove the subtree and run the ancestor loop from the
last segment index down to 0.
The body of appendToAbsPath is not among the provided sources; it is
modelled from the spec, which derives the Path of an environment as
environmentsRoot + "/" + Name (section 3 of the spec). -/
def DeleteEnvironment (fs : FS) (name : String) : DeleteOutcome :=
  let envPath := envRootStr ++ "/" ++ name
  match GetEnvironments fs with
  | Except.error e => DeleteOutcome.err e fs
  | Except.ok envs =>
    match buildEnvPathMap none envs with
    | none => DeleteOutcome.panicked "assignment to entry in nil map" fs
    | some allEnvPaths =>
      match mapLookup allEnvPaths envPath with
      | none =>
        DeleteOutcome.err ("Environment \"" ++ envPath ++ "\" does not exist.") fs
      | some _ =>
        let fs1 := fs.removeAllStr envPath
        let dirSegs := splitOnSlash name
        DeleteOutcome.ok
          (dirSegs.reverse.foldl (fun acc seg => pruneOnce acc name seg) fs1)

/-! ### The spec-modelled path mapper and its guarded operations -/

/-- Modelled from the spec: the body of the path mapper appendToAbsPath
is not among the provided sources, and the spec (section 4.1) requires
pathFor to reject names containing dot-dot segments or absolute-path
segments with ErrInvalidName, joining the remaining names under the
environments root. -/
def pathFor (name : String) : Except String (List String) :=
  if strLead "/" name then Except.error "ErrInvalidName"
  else if (splitOnSlash name).contains ".." then Except.error "ErrInvalidName"
  else Except.ok (splitOnSlash name)

/-- Modelled from the spec: Create guarded by the pathFor mapper; an
invalid name fails before any filesystem operation. -/
def CreateEnvironmentChecked (fs : FS)
    (name uri specData extensionsLibData k8sLibData : String) :
    Except String FS :=
  match pathFor name with
  | Except.error e => Except.error e
  | Except.ok segs =>
    Except.ok (CreateEnvironment fs segs uri specData extensionsLibData k8sLibData).1

/-- Modelled from the spec: Delete guarded by the pathFor mapper; an
invalid name fails before any filesystem operation. -/
def DeleteEnvironmentChecked (fs : FS) (name : String) :
    Except String DeleteOutcome :=
  match pathFor name with
  | Except.error e => Except.error e
  | Except.ok _ => Except.ok (DeleteEnvironment fs name)

/-! ### Derived notions used to state the claims -/

/-- The environments root with nothing beneath it: the store before any
environment is created. -/
def emptyStore : FS := { dirs := [[]], files := [] }

/-- The Environment that the walk callback would emit at a path, when it
emits one. -/
def envAt (fs : FS) (p : List String) : Option Environment :=
  if fs.isDir p && fs.existsNode (p ++ [specFilename]) then
    match fs.fileContent (p ++ [specFilename]) with
    | none => none
    | some content =>
      match unmarshalEnvironmentSpec content with
      | Except.error _ => none
      | Except.ok sp =>
        some { Path := nodeStr p, Name := envNameOf p, URI := sp.URI }
  else none

/-- The walk callback cannot fail at this node: either it is not a
directory holding something called spec.json, or that spec.json is a
file whose content decodes. -/
def descriptorOK (fs : FS) (p : List String) : Bool :=
  !(fs.isDir p) || !(fs.existsNode (p ++ [specFilename])) ||
    (match fs.fileContent (p ++ [specFilename]) with
     | none => false
     | some content =>
       match unmarshalEnvironmentSpec content with
       | Except.error _ => false
       | Except.ok _ => true)

/-- Every node of the walk passes the callback without error. -/
def GoodFS (fs : FS) : Bool := fs.walkNodes.all (descriptorOK fs)

/-- A usable path segment: non-empty, not a dot or dot-dot segment and
free of slashes, so that it names one real directory level and
filepath.Clean is the identity on slash-joins of such segments. -/
def validSeg (s : String) : Bool :=
  !(s == "") && !(s == ".") && !(s == "..") && !(s.data.contains '/')

/-- A valid environment name: at least one segment, all usable. -/
def validName (segs : List String) : Bool :=
  !segs.isEmpty && segs.all validSeg

/-- No segment collides with the reserved descriptor file name. -/
def reservedFree (segs : List String) : Bool :=
  segs.all (fun s => !(s == specFilename))

/-! ### Round-trip of the JSON string encoding -/

/-- A character of a Lean string is a Unicode scalar value, so its code
point is never a UTF-16 surrogate. -/
lemma char_not_surrogate (c : Char) : isSurrogateUnit c.toNat = false := by
  have h := c.valid
  unfold UInt32.isValidChar Nat.isValidChar at h
  have h2 : c.toNat = c.val.toNat := rfl
  unfold isSurrogateUnit
  rcases h with h | ⟨h1, h3⟩ <;>
    simp only [Bool.and_eq_false_iff, decide_eq_false_iff_not, not_lt, not_le] <;>
    omega

/-- The hexadecimal digit emitted for a value below 16 scans back to the
same value. -/
lemma hex_round : ∀ n < 16, hexDigitVal (toHexDigit n) = some n := by decide

/-- Combining the code units of a surrogate-free character list returns
the characters unchanged. -/
lemma combineUnits_map (cs : List Char) : combineUnits (cs.map Char.toNat) = cs := by
  induction cs with
  | nil => rfl
  | cons c t ih =>
    cases t with
    | nil => simp [combineUnits, char_not_surrogate c, Char.ofNat_toNat]
    | cons c2 t2 =>
      simp only [List.map_cons] at ih ⊢
      rw [combineUnits, char_not_surrogate c, Char.ofNat_toNat]
      simp only [Bool.false_eq_true, if_false]
      exact congrArg (c :: ·) ih

/-- Unfolding of escapeList at a cons cell. -/
lemma escapeList_cons (c : Char) (t : List Char) :
    escapeList (c :: t) = escapeChar c ++ escapeList t := by
  simp [escapeList]

/-- Scanning a closing quote. -/
lemma strUnits_closeQ (r : List Char) :
    strUnits ('"' :: r) = some ([], r) := by
  rw [strUnits.eq_def]; simp

/-- Scanning a two-character quote escape. -/
lemma strUnits_escQ (r : List Char) :
    strUnits ('\\' :: '"' :: r) = consUnit 34 (strUnits r) := by
  rw [strUnits.eq_def]; simp

/-- Scanning a two-character backslash escape. -/
lemma strUnits_escB (r : List Char) :
    strUnits ('\\' :: '\\' :: r) = consUnit 92 (strUnits r) := by
  rw [strUnits.eq_def]; simp

/-- Scanning a two-character newline escape. -/
lemma strUnits_escN (r : List Char) :
    strUnits ('\\' :: 'n' :: r) = consUnit 10 (strUnits r) := by
  rw [strUnits.eq_def]; simp

/-- Scanning a two-character carriage-return escape. -/
lemma strUnits_escR (r : List Char) :
    strUnits ('\\' :: 'r' :: r) = consUnit 13 (strUnits r) := by
  rw [strUnits.eq_def]; simp

/-- Scanning a two-character tab escape. -/
lemma strUnits_escT (r : List Char) :
    strUnits ('\\' :: 't' :: r) = consUnit 9 (strUnits r) := by
  rw [strUnits.eq_def]; simp

/-- Scanning a u00xy escape built from two scannable hex digits. -/
lemma strUnits_u00 (d1 d2 : Char) (a b : Nat) (r : List Char)
    (hd1 : hexDigitVal d1 = some a) (hd2 : hexDigitVal d2 = some b) :
    strUnits ('\\' :: 'u' :: '0' :: '0' :: d1 :: d2 :: r) =
      consUnit (((0 * 16 + 0) * 16 + a) * 16 + b) (strUnits r) := by
  rw [strUnits.eq_def]
  simp [show hexDigitVal '0' = some 0 from by decide, hd1, hd2]

/-- Scanning a u202x escape built from a scannable hex digit. -/
lemma strUnits_u202 (d : Char) (b : Nat) (r : List Char)
    (hd : hexDigitVal d = some b) :
    strUnits ('\\' :: 'u' :: '2' :: '0' :: '2' :: d :: r) =
      consUnit (((2 * 16 + 0) * 16 + 2) * 16 + b) (strUnits r) := by
  rw [strUnits.eq_def]
  simp [show hexDigitVal '0' = some 0 from by decide,
    show hexDigitVal '2' = some 2 from by decide, hd]

/-- Scanning an unescaped character. -/
lemma strUnits_plain (c : Char) (r : List Char)
    (h1 : (c == '"') = false) (h2 : (c == '\\') = false)
    (h3 : ¬ c.toNat < 32) :
    strUnits (c :: r) = consUnit c.toNat (strUnits r) := by
  rw [strUnits.eq_def]
  simp [h1, h2, h3]

/-- The scanner inverts the encoding/json escaper unit by unit: the
escaped text followed by the closing quote scans to the code points of
the original characters. -/
lemma strUnits_escape (cs rest : List Char) :
    strUnits (escapeList cs ++ '"' :: rest) = some (cs.map Char.toNat, rest) := by
  induction cs with
  | nil => simp [escapeList, strUnits_closeQ]
  | cons c t ih =>
    rw [escapeList_cons, List.append_assoc]
    simp only [List.map_cons]
    by_cases hq : c = '"'
    · subst hq
      rw [show escapeChar '"' = ['\\', '"'] from rfl]
      simp only [List.cons_append, List.nil_append]
      rw [strUnits_escQ, ih]
      rfl
    have hq' : (c == '"') = false := beq_eq_false_iff_ne.mpr hq
    by_cases hb : c = '\\'
    · subst hb
      rw [show escapeChar '\\' = ['\\', '\\'] from rfl]
      simp only [List.cons_append, List.nil_append]
      rw [strUnits_escB, ih]
      rfl
    have hb' : (c == '\\') = false := beq_eq_false_iff_ne.mpr hb
    by_cases hn : c = '\n'
    · subst hn
      rw [show escapeChar '\n' = ['\\', 'n'] from rfl]
      simp only [List.cons_append, List.nil_append]
      rw [strUnits_escN, ih]
      rfl
    have hn' : (c == '\n') = false := beq_eq_false_iff_ne.mpr hn
    by_cases hr : c = '\r'
    · subst hr
      rw [show escapeChar '\r' = ['\\', 'r'] from rfl]
      simp only [List.cons_append, List.nil_append]
      rw [strUnits_escR, ih]
      rfl
    have hr' : (c == '\r') = false := beq_eq_false_iff_ne.mpr hr
    by_cases ht : c = '\t'
    · subst ht
      rw [show escapeChar '\t' = ['\\', 't'] from rfl]
      simp only [List.cons_append, List.nil_append]
      rw [strUnits_escT, ih]
      rfl
    have ht' : (c == '\t') = false := beq_eq_false_iff_ne.mpr ht
    by_cases hc : c.toNat < 32 ∨ c = '<' ∨ c = '>' ∨ c = '&'
    · have hcond : (c.toNat < 32 || c == '<' || c == '>' || c == '&') = true := by
        rcases hc with h | h | h | h <;> simp [h]
      have hlt : c.toNat < 256 := by
        rcases hc with h | h | h | h
        · omega
        all_goals (subst h; decide)
      have hesc : escapeChar c =
          ['\\', 'u', '0', '0', toHexDigit (c.toNat / 16), toHexDigit (c.toNat % 16)] := by
        unfold escapeChar
        rw [hq', hb', hn', hr', ht', hcond]
        rfl
      rw [hesc]
      simp only [List.cons_append, List.nil_append]
      rw [strUnits_u00 _ _ (c.toNat / 16) (c.toNat % 16) _
            (hex_round _ (by omega)) (hex_round _ (by omega))]
      have harith : ((0 * 16 + 0) * 16 + c.toNat / 16) * 16 + c.toNat % 16 = c.toNat := by
        omega
      rw [harith, ih]
      rfl
    have hcond' : (c.toNat < 32 || c == '<' || c == '>' || c == '&') = false := by
      push_neg at hc
      obtain ⟨hx1, hx2, hx3, hx4⟩ := hc
      simp [beq_eq_false_iff_ne.mpr hx2, beq_eq_false_iff_ne.mpr hx3,
        beq_eq_false_iff_ne.mpr hx4, hx1]
    by_cases hs : c.toNat = 8232 ∨ c.toNat = 8233
    · have hscond : (c.toNat == 8232 || c.toNat == 8233) = true := by
        rcases hs with h | h <;> simp [h]
      have hesc : escapeChar c =
          ['\\', 'u', '2', '0', '2', toHexDigit (c.toNat % 16)] := by
        unfold escapeChar
        rw [hq', hb', hn', hr', ht', hcond', hscond]
        rfl
      rw [hesc]
      simp only [List.cons_append, List.nil_append]
      rw [strUnits_u202 _ (c.toNat % 16) _ (hex_round _ (by omega))]
      have harith : ((2 * 16 + 0) * 16 + 2) * 16 + c.toNat % 16 = c.toNat := by
        rcases hs with h | h <;> omega
      rw [harith, ih]
      rfl
    · have hscond : (c.toNat == 8232 || c.toNat == 8233) = false := by
        push_neg at hs
        obtain ⟨hx1, hx2⟩ := hs
        simp [hx1, hx2]
      have hesc : escapeChar c = [c] := by
        unfold escapeChar
        rw [hq', hb', hn', hr', ht', hcond', hscond]
        rfl
      rw [hesc]
      simp only [List.cons_append, List.nil_append]
      have hge : ¬ c.toNat < 32 := by
        intro hlt
        have : (c.toNat < 32 || c == '<' || c == '>' || c == '&') = true := by simp [hlt]
        rw [hcond'] at this
        exact Bool.false_ne_true this
      rw [strUnits_plain c _ hq' hb' hge, ih]
      rfl

/-- Decoding inverts the encoding/json string escaper: the escaped body
followed by the closing quote decodes back to the original characters
and leaves the remaining input. -/
lemma parseStrBody_escape (cs rest : List Char) :
    parseStrBody (escapeList cs ++ '"' :: rest) = some (cs, rest) := by
  simp [parseStrBody, strUnits_escape, combineUnits_map]

/-- Rebuilding a string from its character list is the identity. -/
lemma string_mk_data (s : String) : String.mk s.data = s := by cases s; rfl

/-- The character list of the generated descriptor text. -/
lemma generateSpecData_data (uri : String) :
    (generateSpecData uri).data =
      '\x7b' :: '\n' :: ' ' :: ' ' :: '"' :: 'u' :: 'r' :: 'i' :: '"' :: ':' :: ' ' ::
        '"' :: (escapeList uri.data ++ '"' :: '\n' :: '\x7d' :: []) := by
  have h : (generateSpecData uri).data =
      ("\x7b\n  \"uri\": ").data ++
        (('"' :: (escapeList uri.data ++ ['"'])) ++ ("\n\x7d").data) := by
    simp [generateSpecData, quoteJSON]
  rw [h]
  simp

/-- Decoding a concrete three-character key literal. -/
lemma parseStrBody_uriKey (r : List Char) :
    parseStrBody ('u' :: 'r' :: 'i' :: '"' :: r) = some (['u', 'r', 'i'], r) := by
  rw [parseStrBody, strUnits_plain 'u' _ (by decide) (by decide) (by decide),
    strUnits_plain 'r' _ (by decide) (by decide) (by decide),
    strUnits_plain 'i' _ (by decide) (by decide) (by decide),
    strUnits_closeQ]
  rfl

/-- Parsing one string-literal member value after a space. -/
lemma parseValue_str (f : Nat) (cs rest : List Char) :
    parseValue f (' ' :: '"' :: (escapeList cs ++ '"' :: rest)) =
      some (JSONTok.str cs, rest) := by
  rw [parseValue]
  simp [skipWS, isJSONSpace, parseStrBody_escape]

/-- Evaluating the member parse on the generated descriptor body: one
member, the key uri, a string value, then the closing brace. -/
lemma parseObjectFields_uriDoc (f : Nat) (uri : String) :
    parseObjectFields (f + 1)
      ('\n' :: ' ' :: ' ' :: '"' :: 'u' :: 'r' :: 'i' :: '"' :: ':' :: ' ' :: '"' ::
        (escapeList uri.data ++ '"' :: '\n' :: '\x7d' :: [])) ⟨""⟩ true =
      some (⟨uri⟩, []) := by
  rw [parseObjectFields.eq_def]
  simp [skipWS, isJSONSpace]
  rw [parseStrBody_uriKey]
  simp [skipWS, isJSONSpace, applyField, keyIsURI, asciiLowerChar]
  rw [parseValue_str]
  simp [skipWS, isJSONSpace, string_mk_data]

/-- Unmarshal recovers exactly the string passed to generateSpecData:
the store round-trips every uri, Unicode and punctuation included. -/
lemma unmarshal_generateSpecData (uri : String) :
    unmarshalEnvironmentSpec (generateSpecData uri) = Except.ok ⟨uri⟩ := by
  unfold unmarshalEnvironmentSpec
  rw [generateSpecData_data]
  simp [skipWS, isJSONSpace]
  rw [parseObjectFields_uriDoc]
  simp

/-! ### Characterizing the walk of GetEnvironments -/

/-- The walk visits the directories and files in some order: sorting
permutes the node list. -/
lemma walkNodes_perm (fs : FS) :
    fs.walkNodes.Perm (fs.dirs ++ fs.files.map (fun e => e.1)) :=
  List.perm_insertionSort _ _

/-- On a node whose descriptor (if any) is readable and decodable, the
walk callback appends exactly the emitted environment. -/
lemma visitEnv_ok (fs : FS) (envs : List Environment) (p : List String)
    (h : descriptorOK fs p = true) :
    visitEnv fs envs p = Except.ok (envs ++ (envAt fs p).toList) := by
  unfold visitEnv envAt
  unfold descriptorOK at h
  by_cases hd : fs.isDir p = true
  · by_cases he : fs.existsNode (p ++ [specFilename]) = true
    · cases hc : fs.fileContent (p ++ [specFilename]) with
      | none => rw [hd, he, hc] at h; simp at h
      | some content =>
        cases hu : unmarshalEnvironmentSpec content with
        | error e => rw [hd, he, hc] at h; simp [hu] at h
        | ok sp => simp [hd, he, hc, hu]
    · have he2 : fs.existsNode (p ++ [specFilename]) = false := by simpa using he
      simp [hd, he2]
  · have hd2 : fs.isDir p = false := by simpa using hd
    simp [hd2]

/-- On a node whose descriptor is unreadable or undecodable, the walk
callback fails whatever has been accumulated. -/
lemma visitEnv_err (fs : FS) (p : List String)
    (h : descriptorOK fs p = false) (acc : List Environment) :
    ∃ e, visitEnv fs acc p = Except.error e := by
  unfold visitEnv
  unfold descriptorOK at h
  by_cases hd : fs.isDir p = true
  · by_cases he : fs.existsNode (p ++ [specFilename]) = true
    · cases hc : fs.fileContent (p ++ [specFilename]) with
      | none => exact ⟨"read spec.json: is a directory", by simp [hd, he, hc]⟩
      | some content =>
        cases hu : unmarshalEnvironmentSpec content with
        | error e => exact ⟨e, by simp [hd, he, hc, hu]⟩
        | ok sp => rw [hd, he, hc] at h; simp [hu] at h
    · have he2 : fs.existsNode (p ++ [specFilename]) = false := by simpa using he
      rw [hd, he2] at h; simp at h
  · have hd2 : fs.isDir p = false := by simpa using hd
    rw [hd2] at h; simp at h

/-- Folding the callback over passing nodes accumulates exactly the
emitted environments, in walk order. -/
lemma foldlM_visit_ok (fs : FS) (l : List (List String)) :
    ∀ acc, (∀ p ∈ l, descriptorOK fs p = true) →
      l.foldlM (visitEnv fs) acc = Except.ok (acc ++ l.filterMap (envAt fs)) := by
  induction l with
  | nil =>
    intro acc _
    simp only [List.filterMap_nil, List.append_nil, List.foldlM_nil]
    rfl
  | cons p t ih =>
    intro acc h
    rw [List.foldlM_cons, visitEnv_ok fs acc p (h p (by simp))]
    have hbind : (Except.ok (acc ++ (envAt fs p).toList) >>=
        fun acc2 => t.foldlM (visitEnv fs) acc2) =
        t.foldlM (visitEnv fs) (acc ++ (envAt fs p).toList) := rfl
    rw [hbind, ih _ (fun q hq => h q (by simp [hq]))]
    cases hp : envAt fs p <;> simp [hp]

/-- Folding the callback over a node list holding a failing node aborts
with an error, whatever has been accumulated. -/
lemma foldlM_visit_err (fs : FS) (l : List (List String)) :
    ∀ acc, (∃ p ∈ l, descriptorOK fs p = false) →
      ∃ e, l.foldlM (visitEnv fs) acc = Except.error e := by
  induction l with
  | nil => intro acc h; simp at h
  | cons q t ih =>
    intro acc h
    obtain ⟨p, hp, hbad⟩ := h
    rcases List.mem_cons.mp hp with heq | hmem
    · subst heq
      cases hq : visitEnv fs acc p with
      | error e => exact ⟨e, by rw [List.foldlM_cons, hq]; rfl⟩
      | ok acc2 =>
        obtain ⟨e, he⟩ := visitEnv_err fs p hbad acc
        rw [hq] at he
        exact absurd he (by simp)
    · cases hq : visitEnv fs acc q with
      | error e => exact ⟨e, by rw [List.foldlM_cons, hq]; rfl⟩
      | ok acc2 =>
        obtain ⟨e, he⟩ := ih acc2 ⟨p, hmem, hbad⟩
        refine ⟨e, ?_⟩
        rw [List.foldlM_cons, hq]
        exact he

/-- When every walked descriptor decodes, GetEnvironments succeeds and
returns exactly the environments emitted along the walk. -/
lemma getEnvironments_ok (fs : FS) (hroot : fs.isDir [] = true)
    (hgood : GoodFS fs = true) :
    GetEnvironments fs = Except.ok ((fs.walkNodes).filterMap (envAt fs)) := by
  unfold GetEnvironments
  rw [hroot]
  simp only [if_true]
  exact foldlM_visit_ok fs _ []
    (fun p hp => by
      have := List.all_eq_true.mp hgood p hp
      exact this)

/-- When some walked node fails (unreadable or undecodable descriptor),
GetEnvironments aborts with an error and returns no list at all. -/
lemma getEnvironments_err (fs : FS) (hroot : fs.isDir [] = true)
    (p : List String) (hp : p ∈ fs.walkNodes)
    (hbad : descriptorOK fs p = false) :
    ∃ e, GetEnvironments fs = Except.error e := by
  unfold GetEnvironments
  rw [hroot]
  simp only [if_true]
  exact foldlM_visit_err fs _ [] ⟨p, hp, hbad⟩

/-- In a duplicate-free list a member is counted exactly once. -/
lemma count_one_of_nodup_mem {α : Type} [BEq α] [LawfulBEq α] {l : List α} {a : α}
    (hn : l.Nodup) (hm : a ∈ l) : l.count a = 1 := by
  induction l with
  | nil => simp at hm
  | cons b t ih =>
    rcases List.mem_cons.mp hm with rfl | hmem
    · rw [List.count_cons_self, List.count_eq_zero.mpr (List.nodup_cons.mp hn).1]
    · have hne : a ≠ b := fun h => (List.nodup_cons.mp hn).1 (h ▸ hmem)
      rw [List.count_cons_of_ne hne]
      exact ih (List.nodup_cons.mp hn).2 hmem

/-- A filterMap hitting exactly one element (counted once) returns the
singleton of its image. -/
lemma filterMap_single {α β : Type} [BEq α] [LawfulBEq α] (f : α → Option β)
    (l : List α) (x : α) (b : β)
    (h1 : ∀ a ∈ l, a ≠ x → f a = none) (h2 : f x = some b)
    (h3 : l.count x = 1) :
    l.filterMap f = [b] := by
  induction l with
  | nil => simp at h3
  | cons a t ih =>
    by_cases hax : a = x
    · subst hax
      have hcount : t.count a = 0 := by
        have := h3
        rw [List.count_cons_self] at this
        omega
      have hnot : a ∉ t := by
        intro hmem
        have hpos : 0 < t.count a := List.count_pos_iff.mpr hmem
        omega
      have hall : ∀ q ∈ t, f q = none := by
        intro q hq
        exact h1 q (by simp [hq]) (fun hqx => hnot (hqx ▸ hq))
      rw [List.filterMap_cons, h2]
      have : t.filterMap f = [] := List.filterMap_eq_nil_iff.mpr hall
      rw [this]
    · have hfa : f a = none := h1 a (by simp) hax
      rw [List.filterMap_cons, hfa]
      refine ih (fun q hq hqx => h1 q (by simp [hq]) hqx) ?_
      have := h3
      rw [List.count_cons_of_ne (Ne.symm hax)] at this
      exact this

/-! ### The state produced by CreateEnvironment on a fresh store -/

/-- Appending different last segments yields different paths. -/
lemma append_last_ne (l : List String) {a b : String} (h : a ≠ b) :
    l ++ [a] ≠ l ++ [b] := by
  intro hcontra
  exact h (by simpa using List.append_cancel_left hcontra)

/-- Membership in the initial runs of a segment list. -/
lemma mem_initsOf {l q : List String} :
    q ∈ initsOf l ↔ ∃ k, k ≤ l.length ∧ q = l.take k := by
  induction l generalizing q with
  | nil =>
    simp only [initsOf, List.mem_singleton]
    constructor
    · rintro rfl; exact ⟨0, by simp⟩
    · rintro ⟨k, _, rfl⟩; simp
  | cons s t ih =>
    simp only [initsOf, List.mem_cons, List.mem_map]
    constructor
    · rintro (rfl | ⟨q2, hq2, rfl⟩)
      · exact ⟨0, by simp⟩
      · obtain ⟨k, hk, rfl⟩ := ih.mp hq2
        exact ⟨k + 1, by simpa using hk, by simp⟩
    · rintro ⟨k, hk, rfl⟩
      cases k with
      | zero => left; rfl
      | succ k2 =>
        right
        exact ⟨t.take k2, ih.mpr ⟨k2, by simpa using hk, rfl⟩, by simp⟩

/-- The full list is one of its initial runs. -/
lemma self_mem_initsOf (l : List String) : l ∈ initsOf l :=
  mem_initsOf.mpr ⟨l.length, le_refl _, by simp⟩

/-- The empty run is one of the initial runs. -/
lemma nil_mem_initsOf (l : List String) : [] ∈ initsOf l :=
  mem_initsOf.mpr ⟨0, Nat.zero_le _, by simp⟩

/-- The initial runs are pairwise distinct. -/
lemma initsOf_nodup (l : List String) : (initsOf l).Nodup := by
  induction l with
  | nil => simp [initsOf]
  | cons s t ih =>
    refine List.Nodup.cons ?_ (ih.map ?_)
    · intro hmem
      obtain ⟨q, _, hq⟩ := List.mem_map.mp hmem
      exact List.cons_ne_nil s q hq
    · intro a b hab
      injection hab

/-- No proper initial run, extended by any further segment, reaches the
path of a file of the created environment. -/
lemma init_append_ne {segs q : List String} (hq : q ∈ initsOf segs)
    (hne : q ≠ segs) (x y : String) : q ++ [x] ≠ segs ++ [y] := by
  obtain ⟨k, hk, rfl⟩ := mem_initsOf.mp hq
  rcases Nat.lt_or_ge k segs.length with hlt | hge
  · intro hcontra
    have hlen := congrArg List.length hcontra
    simp [List.length_take] at hlen
    omega
  · exact absurd (by simpa using List.take_of_length_le (by omega)) hne

/-- An initial run extended inside the list: the appended element is one
of the segments of the full list. -/
lemma init_append_mem {segs q : List String} {x : String}
    (h : q ++ [x] ∈ initsOf segs) : x ∈ segs := by
  obtain ⟨k, hk, heq⟩ := mem_initsOf.mp h
  have hx : x ∈ q ++ [x] := by simp
  rw [heq] at hx
  exact List.take_subset k segs hx

/-- The directories of the filesystem created from the empty store are
exactly the initial runs of the environment name. -/
lemma create_isDir (segs : List String) (uri S E K : String) (q : List String) :
    (CreateEnvironment emptyStore segs uri S E K).1.isDir q = true ↔
      q ∈ initsOf segs := by
  unfold CreateEnvironment FS.isDir FS.mkdirAll FS.writeFile emptyStore
  simp only []
  rw [List.elem_iff]
  simp only [List.mem_append, List.mem_filter, List.mem_singleton]
  constructor
  · rintro (rfl | ⟨hmem, _⟩)
    · exact nil_mem_initsOf segs
    · exact hmem
  · intro hmem
    by_cases hq : q = []
    · exact Or.inl hq
    · refine Or.inr ⟨hmem, ?_⟩
      simp [List.elem_iff, hq]

/-- The files of the filesystem created from the empty store are the
four artifacts, in write order. -/
lemma create_files (segs : List String) (uri S E K : String) :
    (CreateEnvironment emptyStore segs uri S E K).1.files =
      [(segs ++ [schemaFilename], S),
       (segs ++ [k8sLibFilename], K),
       (segs ++ [extensionsLibFilename], E),
       (segs ++ [specFilename], generateSpecData uri)] := by
  have h1 : ((segs ++ [schemaFilename] : List String) == segs ++ [k8sLibFilename]) = false :=
    beq_eq_false_iff_ne.mpr (append_last_ne segs (by decide))
  have h2 : ((segs ++ [schemaFilename] : List String) == segs ++ [extensionsLibFilename]) = false :=
    beq_eq_false_iff_ne.mpr (append_last_ne segs (by decide))
  have h3 : ((segs ++ [k8sLibFilename] : List String) == segs ++ [extensionsLibFilename]) = false :=
    beq_eq_false_iff_ne.mpr (append_last_ne segs (by decide))
  have h4 : ((segs ++ [schemaFilename] : List String) == segs ++ [specFilename]) = false :=
    beq_eq_false_iff_ne.mpr (append_last_ne segs (by decide))
  have h5 : ((segs ++ [k8sLibFilename] : List String) == segs ++ [specFilename]) = false :=
    beq_eq_false_iff_ne.mpr (append_last_ne segs (by decide))
  have h6 : ((segs ++ [extensionsLibFilename] : List String) == segs ++ [specFilename]) = false :=
    beq_eq_false_iff_ne.mpr (append_last_ne segs (by decide))
  unfold CreateEnvironment FS.writeFile FS.mkdirAll emptyStore
  simp [h1, h2, h3, h4, h5, h6]

/-- The directories of the created store, unchanged by the file writes. -/
lemma create_dirs (segs : List String) (uri S E K : String) :
    (CreateEnvironment emptyStore segs uri S E K).1.dirs =
      [[]] ++ (initsOf segs).filter
        (fun q => !(([[]] : List (List String)).contains q)) := rfl

/-- Reading the descriptor of the created environment yields the
generated data. -/
lemma create_fileContent_spec (segs : List String) (uri S E K : String) :
    (CreateEnvironment emptyStore segs uri S E K).1.fileContent
      (segs ++ [specFilename]) = some (generateSpecData uri) := by
  have h1 : ((segs ++ [schemaFilename] : List String) == segs ++ [specFilename]) = false :=
    beq_eq_false_iff_ne.mpr (append_last_ne segs (by decide))
  have h2 : ((segs ++ [k8sLibFilename] : List String) == segs ++ [specFilename]) = false :=
    beq_eq_false_iff_ne.mpr (append_last_ne segs (by decide))
  have h3 : ((segs ++ [extensionsLibFilename] : List String) == segs ++ [specFilename]) = false :=
    beq_eq_false_iff_ne.mpr (append_last_ne segs (by decide))
  unfold FS.fileContent
  rw [create_files]
  simp [List.find?, h1, h2, h3]

/-- A path that is none of the four artifact paths holds no file in the
created store. -/
lemma create_fileContent_none (segs : List String) (uri S E K : String)
    (p : List String)
    (h1 : p ≠ segs ++ [schemaFilename]) (h2 : p ≠ segs ++ [k8sLibFilename])
    (h3 : p ≠ segs ++ [extensionsLibFilename]) (h4 : p ≠ segs ++ [specFilename]) :
    (CreateEnvironment emptyStore segs uri S E K).1.fileContent p = none := by
  unfold FS.fileContent
  rw [create_files]
  simp [List.find?, beq_eq_false_iff_ne.mpr (fun h => h1 h.symm),
    beq_eq_false_iff_ne.mpr (fun h => h2 h.symm),
    beq_eq_false_iff_ne.mpr (fun h => h3 h.symm),
    beq_eq_false_iff_ne.mpr (fun h => h4 h.symm)]

/-- An artifact file path is longer than every directory of the created
store, so it is not a directory. -/
lemma create_file_not_dir (segs : List String) (uri S E K : String) (x : String) :
    (CreateEnvironment emptyStore segs uri S E K).1.isDir (segs ++ [x]) = false := by
  rw [Bool.eq_false_iff]
  intro hcontra
  obtain ⟨k, hk, heq⟩ := mem_initsOf.mp ((create_isDir segs uri S E K _).mp hcontra)
  have hlen := congrArg List.length heq
  simp [List.length_take] at hlen
  omega

/-- The name the walk derives for a non-root path. -/
lemma envNameOf_ne_nil {p : List String} (h : p ≠ []) : envNameOf p = joinSegs p := by
  cases p with
  | nil => exact absurd rfl h
  | cons s t => rfl

/-- The created environment directory emits exactly the environment with
the created name and uri. -/
lemma create_envAt_self (segs : List String) (uri S E K : String)
    (hne : segs ≠ []) :
    envAt (CreateEnvironment emptyStore segs uri S E K).1 segs =
      some { Path := nodeStr segs, Name := joinSegs segs, URI := uri } := by
  have hdir : (CreateEnvironment emptyStore segs uri S E K).1.isDir segs = true :=
    (create_isDir segs uri S E K segs).mpr (self_mem_initsOf segs)
  have hfile := create_fileContent_spec segs uri S E K
  unfold envAt
  rw [hdir]
  simp [FS.existsNode, FS.isFile, hfile, unmarshal_generateSpecData,
    envNameOf_ne_nil hne]

/-- A segment list all of whose members avoid the descriptor name. -/
lemma reservedFree_not_mem {segs : List String}
    (hr : reservedFree segs = true) : specFilename ∉ segs := by
  intro hmem
  have := List.all_eq_true.mp hr specFilename hmem
  simp at this

/-- Every other directory of the created store (the root and the
intermediate levels) emits nothing: its descriptor path holds neither a
file nor a directory. -/
lemma create_envAt_other (segs : List String) (uri S E K : String)
    (hr : reservedFree segs = true) (q : List String)
    (hq : q ∈ initsOf segs) (hne : q ≠ segs) :
    envAt (CreateEnvironment emptyStore segs uri S E K).1 q = none := by
  have hfile : (CreateEnvironment emptyStore segs uri S E K).1.fileContent
      (q ++ [specFilename]) = none :=
    create_fileContent_none segs uri S E K _
      (init_append_ne hq hne _ _) (init_append_ne hq hne _ _)
      (init_append_ne hq hne _ _) (init_append_ne hq hne _ _)
  have hdir : (CreateEnvironment emptyStore segs uri S E K).1.isDir
      (q ++ [specFilename]) = false := by
    rw [Bool.eq_false_iff]
    intro hcontra
    exact reservedFree_not_mem hr
      (init_append_mem ((create_isDir segs uri S E K _).mp hcontra))
  unfold envAt
  simp [FS.existsNode, FS.isFile, hfile, hdir]

/-- A file node of the created store emits nothing: it is not a
directory. -/
lemma create_envAt_file (segs : List String) (uri S E K : String) (x : String) :
    envAt (CreateEnvironment emptyStore segs uri S E K).1 (segs ++ [x]) = none := by
  unfold envAt
  simp [create_file_not_dir segs uri S E K x]

/-- Decomposing membership in the walked nodes of the created store. -/
lemma create_walk_mem (segs : List String) (uri S E K : String) (p : List String)
    (hp : p ∈ (CreateEnvironment emptyStore segs uri S E K).1.walkNodes) :
    p ∈ initsOf segs ∨ ∃ x, x ∈ [schemaFilename, k8sLibFilename,
      extensionsLibFilename, specFilename] ∧ p = segs ++ [x] := by
  have hmem := (walkNodes_perm _).subset hp
  rcases List.mem_append.mp hmem with hd | hf
  · left
    have : (CreateEnvironment emptyStore segs uri S E K).1.isDir p = true := by
      unfold FS.isDir
      exact List.elem_iff.mpr hd
    exact (create_isDir segs uri S E K p).mp this
  · right
    rw [create_files] at hf
    simp only [List.map_cons, List.map_nil, List.mem_cons, List.not_mem_nil,
      or_false] at hf
    rcases hf with h | h | h | h
    · exact ⟨schemaFilename, by simp, h⟩
    · exact ⟨k8sLibFilename, by simp, h⟩
    · exact ⟨extensionsLibFilename, by simp, h⟩
    · exact ⟨specFilename, by simp, h⟩

/-- Every node the walk of the created store visits passes the
callback. -/
lemma create_goodFS (segs : List String) (uri S E K : String)
    (hne : segs ≠ []) (hr : reservedFree segs = true) :
    GoodFS (CreateEnvironment emptyStore segs uri S E K).1 = true := by
  unfold GoodFS
  rw [List.all_eq_true]
  intro p hp
  rcases create_walk_mem segs uri S E K p hp with hd | ⟨x, _, rfl⟩
  · by_cases hps : p = segs
    · subst hps
      unfold descriptorOK
      rw [create_fileContent_spec]
      simp [unmarshal_generateSpecData]
    · unfold descriptorOK
      have hnone := create_envAt_other segs uri S E K hr p hd hps
      unfold envAt at hnone
      by_cases hdir : (CreateEnvironment emptyStore segs uri S E K).1.isDir p = true
      · have hfile : (CreateEnvironment emptyStore segs uri S E K).1.fileContent
            (p ++ [specFilename]) = none :=
          create_fileContent_none segs uri S E K _
            (init_append_ne hd hps _ _) (init_append_ne hd hps _ _)
            (init_append_ne hd hps _ _) (init_append_ne hd hps _ _)
        have hdir2 : (CreateEnvironment emptyStore segs uri S E K).1.isDir
            (p ++ [specFilename]) = false := by
          rw [Bool.eq_false_iff]
          intro hcontra
          exact reservedFree_not_mem hr
            (init_append_mem ((create_isDir segs uri S E K _).mp hcontra))
        simp [FS.existsNode, FS.isFile, hfile, hdir2]
      · have : (CreateEnvironment emptyStore segs uri S E K).1.isDir p = false := by
          simpa using hdir
        simp [descriptorOK, this]
  · unfold descriptorOK
    simp [create_file_not_dir segs uri S E K x]

/-- The environment directory is counted exactly once among the walked
nodes of the created store. -/
lemma create_count_segs (segs : List String) (uri S E K : String)
    (hne : segs ≠ []) :
    ((CreateEnvironment emptyStore segs uri S E K).1.walkNodes).count segs = 1 := by
  have hperm : List.count segs
      ((CreateEnvironment emptyStore segs uri S E K).1.walkNodes) =
      List.count segs ((CreateEnvironment emptyStore segs uri S E K).1.dirs ++
        ((CreateEnvironment emptyStore segs uri S E K).1.files).map (fun e => e.1)) :=
    (walkNodes_perm (CreateEnvironment emptyStore segs uri S E K).1).countP_eq _
  rw [hperm, List.count_append]
  have hd : ((CreateEnvironment emptyStore segs uri S E K).1.dirs).count segs = 1 := by
    rw [create_dirs, List.count_append]
    have h0 : (([[]] : List (List String))).count segs = 0 :=
      List.count_eq_zero.mpr (by simpa using hne)
    have hpred : (!(([[]] : List (List String)).contains segs)) = true := by
      rw [Bool.not_eq_true']
      rw [show (([[]] : List (List String)).contains segs) =
        (segs ∈ [([] : List String)] : Bool) from by
          by_cases h : segs ∈ [([] : List String)] <;> simp [List.elem_iff, h]]
      simp [hne]
    have h1 : ((initsOf segs).filter
        (fun q => !(([[]] : List (List String)).contains q))).count segs = 1 :=
      count_one_of_nodup_mem ((initsOf_nodup segs).filter _)
        (List.mem_filter.mpr ⟨self_mem_initsOf segs, hpred⟩)
    omega
  have hf : (((CreateEnvironment emptyStore segs uri S E K).1.files).map
      (fun e => e.1)).count segs = 0 := by
    rw [create_files, List.count_eq_zero]
    intro hmem
    simp only [List.map_cons, List.map_nil, List.mem_cons, List.not_mem_nil,
      or_false] at hmem
    rcases hmem with h | h | h | h <;>
      exact absurd (congrArg List.length h) (by simp)
  omega

/-! ### Distinctness of derived names -/

/-- A valid name has at least one segment. -/
lemma validName_ne_nil {segs : List String} (h : validName segs = true) :
    segs ≠ [] := by
  intro hc
  subst hc
  simp [validName] at h

/-- Every segment of a valid name has at least one character. -/
lemma validName_seg_len {segs : List String} (hv : validName segs = true) :
    ∀ s ∈ segs, 1 ≤ s.data.length := by
  intro s hs
  have hall : ∀ x ∈ segs, validSeg x = true := by
    unfold validName at hv
    rw [Bool.and_eq_true] at hv
    exact List.all_eq_true.mp hv.2
  have hseg := hall s hs
  unfold validSeg at hseg
  rw [Bool.and_eq_true, Bool.and_eq_true, Bool.and_eq_true] at hseg
  have hne : s ≠ "" := by
    have := hseg.1.1.1
    simpa using this
  have : s.data ≠ [] := by
    intro hd
    apply hne
    have := congrArg String.mk hd
    rwa [string_mk_data] at this
  cases hx : s.data with
  | nil => exact absurd hx this
  | cons c t => simp [hx]

/-- Unfolding the slash-join at a head segment with a non-empty tail. -/
lemma joinSegs_data_cons (s : String) (t : List String) (ht : t ≠ []) :
    (joinSegs (s :: t)).data = s.data ++ '/' :: (joinSegs t).data := by
  cases t with
  | nil => exact absurd rfl ht
  | cons b u =>
    show (s ++ "/" ++ joinSegs (b :: u)).data = _
    rw [String.data_append, String.data_append,
      show ("/" : String).data = ['/'] from rfl]
    simp

/-- A list of positive numbers sums to at least its length. -/
lemma sum_ge_length (l : List Nat) (h : ∀ x ∈ l, 1 ≤ x) : l.length ≤ l.sum := by
  induction l with
  | nil => simp
  | cons a t ih =>
    simp only [List.length_cons, List.sum_cons]
    have h1 := h a (by simp)
    have h2 := ih (fun x hx => h x (by simp [hx]))
    omega

/-- Character count of a slash-join of a non-empty segment list. -/
lemma joinSegs_length (l : List String) (hl : l ≠ []) :
    (joinSegs l).data.length =
      (l.map (fun s => s.data.length)).sum + l.length - 1 := by
  induction l with
  | nil => exact absurd rfl hl
  | cons s t ih =>
    by_cases ht : t = []
    · subst ht
      show (joinSegs [s]).data.length = _
      simp [joinSegs]
    · rw [joinSegs_data_cons s t ht]
      have h1 : 1 ≤ t.length := List.length_pos.mpr ht
      have h2 := ih ht
      simp only [List.length_append, List.length_cons, List.map_cons,
        List.sum_cons, List.length_cons]
      omega

/-- The slash-join of a proper leading part of a valid name is a
strictly shorter string than the join of the whole name, hence
distinct. -/
lemma joinSegs_take_ne {segs : List String} (hv : validName segs = true)
    (k : Nat) (hk : k < segs.length) :
    joinSegs (segs.take k) ≠ joinSegs segs := by
  intro hcontra
  have hlen := congrArg (fun s => s.data.length) hcontra
  simp only [] at hlen
  have hnn : segs ≠ [] := validName_ne_nil hv
  have hfull := joinSegs_length segs hnn
  have hsum1 : segs.length ≤ ((segs.map (fun s => s.data.length))).sum := by
    refine le_trans (le_of_eq ?_) (sum_ge_length _ ?_)
    · simp
    · intro x hx
      obtain ⟨s, hs, rfl⟩ := List.mem_map.mp hx
      exact validName_seg_len hv s hs
  by_cases hk0 : segs.take k = []
  · rw [hk0] at hlen
    simp only [joinSegs] at hlen
    rw [hfull] at hlen
    rw [show ("" : String).data.length = 0 from rfl] at hlen
    have hlp : 1 ≤ segs.length := List.length_pos.mpr hnn
    omega
  · have htl := joinSegs_length (segs.take k) hk0
    rw [htl, hfull] at hlen
    have hmap : (segs.take k).map (fun s => s.data.length) =
        (segs.map (fun s => s.data.length)).take k := by
      rw [List.map_take]
    rw [hmap] at hlen
    have hsplit := List.sum_take_add_sum_drop (segs.map (fun s => s.data.length)) k
    have hdroplen : (n : Nat) → True := fun _ => trivial
    have hdrop : ((segs.map (fun s => s.data.length)).drop k).length ≤
        ((segs.map (fun s => s.data.length)).drop k).sum := by
      refine sum_ge_length _ ?_
      intro x hx
      have hx2 := List.mem_of_mem_drop hx
      obtain ⟨s, hs, rfl⟩ := List.mem_map.mp hx2
      exact validName_seg_len hv s hs
    have hlt : (segs.take k).length = k := by
      rw [List.length_take]
      omega
    have hdl : ((segs.map (fun s => s.data.length)).drop k).length =
        segs.length - k := by
      rw [List.length_drop, List.length_map]
    omega

/-- The absolute path of a non-root node. -/
lemma nodeStr_ne_nil {p : List String} (h : p ≠ []) :
    nodeStr p = envRootStr ++ "/" ++ joinSegs p := by
  cases p with
  | nil => exact absurd rfl h
  | cons s t => rfl

/-- Distinct proper leading parts give distinct absolute paths. -/
lemma nodeStr_init_ne {segs q : List String} (hv : validName segs = true)
    (hq : q ∈ initsOf segs) (hne : q ≠ segs) : nodeStr segs ≠ nodeStr q := by
  obtain ⟨k, hk, rfl⟩ := mem_initsOf.mp hq
  have hkl : k < segs.length := by
    rcases Nat.lt_or_ge k segs.length with h | h
    · exact h
    · exact absurd (by simpa using List.take_of_length_le h) hne
  have hnn : segs ≠ [] := validName_ne_nil hv
  intro hcontra
  by_cases hk0 : segs.take k = []
  · rw [hk0] at hcontra
    have hlen := congrArg (fun s => s.data.length) hcontra
    rw [nodeStr_ne_nil hnn] at hlen
    simp only [String.data_append, List.length_append] at hlen
    have hjl := joinSegs_length segs hnn
    have hsum1 : segs.length ≤ ((segs.map (fun s => s.data.length))).sum := by
      refine le_trans (le_of_eq ?_) (sum_ge_length _ ?_)
      · simp
      · intro x hx
        obtain ⟨s, hs, rfl⟩ := List.mem_map.mp hx
        exact validName_seg_len hv s hs
    have hlp : 1 ≤ segs.length := List.length_pos.mpr hnn
    have hroot : (nodeStr []).data.length = envRootStr.data.length := rfl
    rw [hroot] at hlen
    have h1 : ("/" : String).data.length = 1 := rfl
    omega
  · rw [nodeStr_ne_nil hnn, nodeStr_ne_nil hk0] at hcontra
    have hdata := congrArg String.data hcontra
    rw [String.data_append, String.data_append, String.data_append,
      String.data_append] at hdata
    have hcancel : (joinSegs segs).data = (joinSegs (segs.take k)).data :=
      List.append_cancel_left hdata
    have hjoin : joinSegs segs = joinSegs (segs.take k) := by
      have := congrArg String.mk hcancel
      rwa [string_mk_data, string_mk_data] at this
    exact joinSegs_take_ne hv k hkl hjoin.symm

/-! ### Create followed by List on the fresh store -/

/-- Create on the fresh store, then List: exactly the single created
environment is returned. -/
lemma create_getEnvironments (segs : List String) (uri S E K : String)
    (hne : segs ≠ []) (hr : reservedFree segs = true) :
    GetEnvironments (CreateEnvironment emptyStore segs uri S E K).1 =
      Except.ok [{ Path := nodeStr segs, Name := joinSegs segs, URI := uri }] := by
  have hroot : (CreateEnvironment emptyStore segs uri S E K).1.isDir [] = true :=
    (create_isDir segs uri S E K []).mpr (nil_mem_initsOf segs)
  rw [getEnvironments_ok _ hroot (create_goodFS segs uri S E K hne hr)]
  congr 1
  refine filterMap_single _ _ segs _ ?_ (create_envAt_self segs uri S E K hne)
    (create_count_segs segs uri S E K hne)
  intro a ha hne2
  rcases create_walk_mem segs uri S E K a ha with hd | ⟨x, _, rfl⟩
  · exact create_envAt_other segs uri S E K hr a hd hne2
  · exact create_envAt_file segs uri S E K x

/-! ### The behavior of DeleteEnvironment -/

/-- DeleteEnvironment never succeeds and never changes the filesystem:
it errors before any removal (no environment exists, or listing fails),
or panics on the first assignment to the nil path map (some environment
exists). -/
lemma deleteEnvironment_no_mutation (fs : FS) (name : String) :
    (∃ e, DeleteEnvironment fs name = DeleteOutcome.err e fs) ∨
      DeleteEnvironment fs name =
        DeleteOutcome.panicked "assignment to entry in nil map" fs := by
  unfold DeleteEnvironment
  cases hg : GetEnvironments fs with
  | error e => exact Or.inl ⟨e, rfl⟩
  | ok envs =>
    cases envs with
    | nil => exact Or.inl ⟨_, rfl⟩
    | cons env rest => exact Or.inr rfl

/-- A descriptor file directly inside the environments root makes the
walk emit the root itself, under the root path as both Path and Name. -/
lemma root_emitted (fs : FS) (hroot : fs.isDir [] = true)
    (hgood : GoodFS fs = true) (content : String) (sp : EnvironmentSpec)
    (hc : fs.fileContent [specFilename] = some content)
    (hu : unmarshalEnvironmentSpec content = Except.ok sp) :
    ∃ l, GetEnvironments fs = Except.ok l ∧
      { Path := envRootStr, Name := envRootStr, URI := sp.URI } ∈ l := by
  refine ⟨_, getEnvironments_ok fs hroot hgood, ?_⟩
  apply List.mem_filterMap.mpr
  refine ⟨[], ?_, ?_⟩
  · exact ((walkNodes_perm fs).mem_iff).mpr
      (List.mem_append.mpr (Or.inl (List.elem_iff.mp hroot)))
  · unfold envAt
    have hfile : fs.fileContent ([] ++ [specFilename]) = some content := hc
    simp only [hroot, FS.existsNode, FS.isFile, List.nil_append, Bool.true_and,
      nodeStr, envNameOf]
    rw [hc]
    simp [hu]

/-- A successful walk callback step either leaves the accumulator
unchanged or appends one environment emitted at the visited path, and
in the latter case the descriptor file at that path really exists. -/
lemma visitEnv_ok_shape (fs : FS) (acc : List Environment) (p : List String)
    (acc2 : List Environment) (h : visitEnv fs acc p = Except.ok acc2) :
    acc2 = acc ∨ (fs.isFile (p ++ [specFilename]) = true ∧
      ∃ sp : EnvironmentSpec,
        acc2 = acc ++ [{ Path := nodeStr p, Name := envNameOf p, URI := sp.URI }]) := by
  unfold visitEnv at h
  by_cases hd : fs.isDir p = true
  · rw [hd] at h
    simp only [if_true] at h
    by_cases he : fs.existsNode (p ++ [specFilename]) = true
    · rw [he] at h
      simp only [if_true] at h
      cases hc : fs.fileContent (p ++ [specFilename]) with
      | none => rw [hc] at h; cases h
      | some content =>
        rw [hc] at h
        cases hu : unmarshalEnvironmentSpec content with
        | error err => simp [hu] at h
        | ok sp =>
          simp only [hu] at h
          simp only [Except.ok.injEq] at h
          refine Or.inr ⟨?_, sp, h.symm⟩
          unfold FS.isFile
          rw [hc]
          rfl
    · have he2 : fs.existsNode (p ++ [specFilename]) = false := by simpa using he
      rw [he2] at h
      simp only [Bool.false_eq_true, if_false, Except.ok.injEq] at h
      exact Or.inl h.symm
  · have hd2 : fs.isDir p = false := by simpa using hd
    rw [hd2] at h
    simp only [Bool.false_eq_true, if_false, Except.ok.injEq] at h
    exact Or.inl h.symm

/-- Every environment a successful fold of the walk callback returns is
either inherited from the accumulator or was emitted at some visited
path whose descriptor file exists. -/
lemma foldlM_visit_mem (fs : FS) (l : List (List String)) :
    ∀ acc res, l.foldlM (visitEnv fs) acc = Except.ok res →
      ∀ e ∈ res, e ∈ acc ∨ ∃ p ∈ l,
        fs.isFile (p ++ [specFilename]) = true ∧
        ∃ sp : EnvironmentSpec,
          e = { Path := nodeStr p, Name := envNameOf p, URI := sp.URI } := by
  induction l with
  | nil =>
    intro acc res h e he
    have hok : Except.ok acc = Except.ok res := h
    have hacc : acc = res := by
      injection hok
    subst hacc
    exact Or.inl he
  | cons p t ih =>
    intro acc res h e he
    rw [List.foldlM_cons] at h
    cases hv : visitEnv fs acc p with
    | error err =>
      rw [hv] at h
      have himp : (Except.error err : Except String (List Environment)) =
          Except.ok res := h
      cases himp
    | ok acc2 =>
      rw [hv] at h
      have h2 : t.foldlM (visitEnv fs) acc2 = Except.ok res := h
      rcases ih acc2 res h2 e he with hmem | ⟨q, hq, hfile, sp, hsp⟩
      · rcases visitEnv_ok_shape fs acc p acc2 hv with rfl | ⟨hfile, sp, rfl⟩
        · exact Or.inl hmem
        · rcases List.mem_append.mp hmem with h3 | h3
          · exact Or.inl h3
          · rw [List.mem_singleton] at h3
            exact Or.inr ⟨p, by simp, hfile, sp, h3⟩
      · exact Or.inr ⟨q, by simp [hq], hfile, sp, hsp⟩

/-- A non-root node has a strictly longer absolute path than the
environments root. -/
lemma nodeStr_ne_root {p : List String} (h : p ≠ []) :
    nodeStr p ≠ envRootStr := by
  rw [nodeStr_ne_nil h]
  intro hcontra
  have hlen := congrArg (fun s => s.data.length) hcontra
  simp only [String.data_append, List.length_append] at hlen
  rw [show ("/" : String).data.length = 1 from rfl] at hlen
  omega

/-- With no descriptor file directly inside the environments root, a
successful List emits nothing under the root path: every returned
environment was emitted at a path whose descriptor file exists, which
rules out the root, and non-root paths differ from the root path. -/
lemma root_not_emitted (fs : FS) (l : List Environment)
    (hnofile : fs.isFile [specFilename] = false)
    (hok : GetEnvironments fs = Except.ok l) :
    ∀ e ∈ l, e.Path ≠ envRootStr := by
  intro e he
  unfold GetEnvironments at hok
  by_cases hroot : fs.isDir [] = true
  · rw [hroot] at hok
    simp only [if_true] at hok
    rcases foldlM_visit_mem fs fs.walkNodes [] l hok e he with
      hmem | ⟨p, _, hfile, sp, rfl⟩
    · simp at hmem
    · by_cases hp : p = []
      · subst hp
        rw [show (([] : List String) ++ [specFilename]) = [specFilename] from rfl,
          hnofile] at hfile
        cases hfile
      · exact nodeStr_ne_root hp
  · have hroot2 : fs.isDir [] = false := by simpa using hroot
    rw [hroot2] at hok
    simp only [Bool.false_eq_true, if_false] at hok
    cases hok

/-! ### File writes of a failing Create prefix -/

/-- Finding a path is unaffected by filtering out a different path. -/
lemma find?_filter_ne {p q : List String} (h : p ≠ q)
    (l : List (List String × String)) :
    List.find? (fun e => e.1 == p) (l.filter (fun e => !(e.1 == q))) =
      List.find? (fun e => e.1 == p) l := by
  induction l with
  | nil => rfl
  | cons a t ih =>
    by_cases hap : a.1 = p
    · have h1 : (a.1 == p) = true := beq_iff_eq.mpr hap
      have h2 : (!(a.1 == q)) = true := by
        simp [beq_eq_false_iff_ne.mpr (fun hh => h (hap.symm.trans hh))]
      simp [List.filter_cons, h2, List.find?_cons, h1]
    · have h1 : (a.1 == p) = false := beq_eq_false_iff_ne.mpr hap
      by_cases haq : a.1 = q
      · have h2 : (!(a.1 == q)) = false := by simp [beq_iff_eq.mpr haq]
        simp [List.filter_cons, h2, List.find?_cons, h1, ih]
      · have h2 : (!(a.1 == q)) = true := by simp [beq_eq_false_iff_ne.mpr haq]
        simp [List.filter_cons, h2, List.find?_cons, h1, ih]

/-- Writing one file leaves the content at every other path unchanged. -/
lemma fileContent_writeFile_ne (fs : FS) {p q : List String} (h : p ≠ q)
    (c : String) :
    (fs.writeFile q c).fileContent p = fs.fileContent p := by
  unfold FS.writeFile FS.fileContent
  simp only []
  rw [List.find?_append, find?_filter_ne h]
  have h2 : List.find? (fun e => e.1 == p) [(q, c)] = none := by
    simp [beq_eq_false_iff_ne.mpr (fun hh => h hh.symm)]
  rw [h2]
  cases List.find? (fun e => e.1 == p) fs.files <;> rfl

/-! ### The claims -/

/-- C1 (amended): for every valid name whose segments avoid the reserved
descriptor file name, and every uri, a successful Create on the fresh
store followed by List yields exactly one Environment whose Name is the
slash-joined name and whose URI is the uri passed to Create.  (As
stated the claim fails: a valid name with a segment equal to spec.json
makes the subsequent List fail, see the counterexample.) -/
theorem C1_create_then_list_exactly_one (segs : List String) (uri S E K : String)
    (hv : validName segs = true) (hr : reservedFree segs = true) :
    ∃ l, GetEnvironments (CreateEnvironment emptyStore segs uri S E K).1 =
        Except.ok l ∧
      l.countP (fun e => e.Name == joinSegs segs && e.URI == uri) = 1 := by
  refine ⟨_, create_getEnvironments segs uri S E K (validName_ne_nil hv) hr, ?_⟩
  simp

/-- C1 witness: the concrete name dev with a concrete uri. -/
theorem C1_witness :
    validName ["dev"] = true ∧ reservedFree ["dev"] = true ∧
    ∃ l, GetEnvironments (CreateEnvironment emptyStore ["dev"]
        "https://10.0.0.1:6443" "S" "E" "K").1 = Except.ok l ∧
      l.countP (fun e => e.Name == joinSegs ["dev"] &&
        e.URI == "https://10.0.0.1:6443") = 1 :=
  ⟨by decide, by decide,
    C1_create_then_list_exactly_one ["dev"] "https://10.0.0.1:6443" "S" "E" "K"
      (by decide) (by decide)⟩

/-- C1 counterexample: the name spec.json is valid (non-empty, no
dot-dot, no slash), its Create succeeds, yet the following List returns
an error instead of exactly one Environment, because the environment
directory named spec.json is taken for a descriptor of its parent and
reading a directory fails. -/
theorem C1_counterexample :
    validName ["spec.json"] = true ∧
    GetEnvironments (CreateEnvironment emptyStore ["spec.json"] "u" "S" "E" "K").1 =
      Except.error "read spec.json: is a directory" :=
  ⟨by decide, by decide⟩

/-- C2 (amended): Create writes the four artifacts in the order schema
snapshot (swagger.json), second library text (k8s.libsonnet), first
library text (k.libsonnet), then the descriptor (spec.json) last; and
for every prefix of Create that fails before the descriptor write, the
descriptor file is absent provided it was absent before the Create
began.  (As stated the claim fails twice: the two library writes happen
in the other order, and a failing re-Create over an existing
environment leaves the stale descriptor present; see the
counterexample.) -/
theorem C2_write_order_descriptor_last (fs : FS) (segs : List String)
    (uri S E K : String) (k : Nat) (hk : k ≤ 2)
    (habsent : fs.isFile (segs ++ [specFilename]) = false) :
    (CreateEnvironment fs segs uri S E K).2 =
      [segs ++ [schemaFilename], segs ++ [k8sLibFilename],
       segs ++ [extensionsLibFilename], segs ++ [specFilename]] ∧
    ((CreateEnvironment fs segs uri S E K).2).getLast? =
      some (segs ++ [specFilename]) ∧
    (CreateEnvironmentUpTo fs segs uri S E K k).isFile
      (segs ++ [specFilename]) = false := by
  refine ⟨rfl, rfl, ?_⟩
  have h1 : segs ++ [specFilename] ≠ segs ++ [schemaFilename] :=
    append_last_ne segs (by decide)
  have h2 : segs ++ [specFilename] ≠ segs ++ [k8sLibFilename] :=
    append_last_ne segs (by decide)
  interval_cases k
  · exact habsent
  · show ((fs.mkdirAll segs).writeFile (segs ++ [schemaFilename]) S).isFile
      (segs ++ [specFilename]) = false
    unfold FS.isFile
    rw [fileContent_writeFile_ne _ h1]
    exact habsent
  · show (((fs.mkdirAll segs).writeFile (segs ++ [schemaFilename]) S).writeFile
      (segs ++ [k8sLibFilename]) K).isFile (segs ++ [specFilename]) = false
    unfold FS.isFile
    rw [fileContent_writeFile_ne _ h2, fileContent_writeFile_ne _ h1]
    exact habsent

/-- C2 witness: a concrete create trace and a concrete failing prefix
with one successful write on a store without the descriptor. -/
theorem C2_witness :
    (1 : Nat) ≤ 2 ∧
    (emptyStore.isFile (["e"] ++ [specFilename]) = false) ∧
    ((CreateEnvironment emptyStore ["e"] "u" "S" "E" "K").2 =
      [["e"] ++ [schemaFilename], ["e"] ++ [k8sLibFilename],
       ["e"] ++ [extensionsLibFilename], ["e"] ++ [specFilename]] ∧
    ((CreateEnvironment emptyStore ["e"] "u" "S" "E" "K").2).getLast? =
      some (["e"] ++ [specFilename]) ∧
    (CreateEnvironmentUpTo emptyStore ["e"] "u" "S" "E" "K" 1).isFile
      (["e"] ++ [specFilename]) = false) :=
  ⟨by decide, by decide,
    C2_write_order_descriptor_last emptyStore ["e"] "u" "S" "E" "K" 1
      (by decide) (by decide)⟩

/-- C2 counterexample: the second artifact written is k8s.libsonnet,
not k.libsonnet as claimed; moreover a Create prefix failing after one
write over an existing environment leaves the old descriptor present,
so descriptor absence does not always witness the partial failure. -/
theorem C2_counterexample :
    ((CreateEnvironment emptyStore ["e"] "u" "S" "E" "K").2).get? 1 =
      some (["e"] ++ [k8sLibFilename]) ∧
    ¬ (((CreateEnvironment emptyStore ["e"] "u" "S" "E" "K").2).get? 1 =
      some (["e"] ++ [extensionsLibFilename])) ∧
    (CreateEnvironmentUpTo (CreateEnvironment emptyStore ["e"] "u" "S" "E" "K").1
      ["e"] "u2" "S2" "E2" "K2" 1).isFile (["e"] ++ [specFilename]) = true := by
  refine ⟨by decide, by decide, by decide⟩

/-- C3 (code bug): deleting a/b while a/c still exists does not prune
ancestors as claimed: DeleteEnvironment panics on the assignment to the
nil path map as soon as the listing is non-empty, before any removal;
and were the pruning loop reachable, its inner prefix check only
executes continue, so it would remove ancestors unconditionally. -/
theorem C3_delete_panics_shared_ancestor :
    DeleteEnvironment (CreateEnvironment (CreateEnvironment emptyStore
        ["a", "b"] "u1" "S" "E" "K").1 ["a", "c"] "u2" "S" "E" "K").1 "a/b" =
      DeleteOutcome.panicked "assignment to entry in nil map"
        (CreateEnvironment (CreateEnvironment emptyStore
          ["a", "b"] "u1" "S" "E" "K").1 ["a", "c"] "u2" "S" "E" "K").1 := by
  decide

/-- C4 (code bug): Delete of a missing name in a store holding some
other environment does not return the not-found error the claim
requires: it panics on the nil path map (before any filesystem
mutation). -/
theorem C4_delete_missing_panics :
    DeleteEnvironment (CreateEnvironment emptyStore ["a"] "u" "S" "E" "K").1 "b" =
      DeleteOutcome.panicked "assignment to entry in nil map"
        (CreateEnvironment emptyStore ["a"] "u" "S" "E" "K").1 := by
  decide

/-- C5 (amended): a descriptor file directly inside the environments
root makes List emit the root itself as an Environment (Path and Name
both the root path); with no descriptor file directly inside the root,
a successful List emits nothing under the root path; and no Delete
ever removes the environments root, because Delete never removes
anything: it errors or panics before any removal, leaving the
filesystem untouched. -/
theorem C5_root_emitted_delete_never_removes_root (fs fs2 fs3 : FS)
    (name content : String) (sp : EnvironmentSpec) (l2 : List Environment)
    (hroot : fs.isDir [] = true) (hgood : GoodFS fs = true)
    (hc : fs.fileContent [specFilename] = some content)
    (hu : unmarshalEnvironmentSpec content = Except.ok sp)
    (hnof : fs3.isFile [specFilename] = false)
    (hok3 : GetEnvironments fs3 = Except.ok l2) :
    (∃ l, GetEnvironments fs = Except.ok l ∧
      { Path := envRootStr, Name := envRootStr, URI := sp.URI } ∈ l) ∧
    (∀ e ∈ l2, e.Path ≠ envRootStr) ∧
    ((∃ e, DeleteEnvironment fs2 name = DeleteOutcome.err e fs2) ∨
      DeleteEnvironment fs2 name =
        DeleteOutcome.panicked "assignment to entry in nil map" fs2) :=
  ⟨root_emitted fs hroot hgood content sp hc hu,
    root_not_emitted fs3 l2 hnof hok3,
    deleteEnvironment_no_mutation fs2 name⟩

/-- C5 witness: a concrete store with a descriptor directly inside the
root, a concrete store without one (holding one ordinary environment),
and a concrete Delete call. -/
theorem C5_witness :
    ({ dirs := [[]], files := [([specFilename], generateSpecData "u")] } : FS).isDir []
        = true ∧
    GoodFS { dirs := [[]], files := [([specFilename], generateSpecData "u")] } = true ∧
    ({ dirs := [[]], files := [([specFilename], generateSpecData "u")] } : FS).fileContent
        [specFilename] = some (generateSpecData "u") ∧
    unmarshalEnvironmentSpec (generateSpecData "u") = Except.ok ⟨"u"⟩ ∧
    ({ dirs := [[], ["a"]],
        files := [(["a", specFilename], generateSpecData "v")] } : FS).isFile
      [specFilename] = false ∧
    GetEnvironments
        { dirs := [[], ["a"]], files := [(["a", specFilename], generateSpecData "v")] } =
      Except.ok [{ Path := envRootStr ++ "/" ++ "a", Name := "a", URI := "v" }] ∧
    ((∃ l, GetEnvironments
        { dirs := [[]], files := [([specFilename], generateSpecData "u")] } =
          Except.ok l ∧
        { Path := envRootStr, Name := envRootStr, URI := ("u" : String) } ∈ l) ∧
      (∀ e ∈ ([{ Path := envRootStr ++ "/" ++ "a", Name := "a", URI := "v" }] :
          List Environment), e.Path ≠ envRootStr) ∧
      ((∃ e, DeleteEnvironment emptyStore "x" = DeleteOutcome.err e emptyStore) ∨
        DeleteEnvironment emptyStore "x" =
          DeleteOutcome.panicked "assignment to entry in nil map" emptyStore)) :=
  ⟨by decide, by decide, by decide, by decide, by decide, by decide,
    C5_root_emitted_delete_never_removes_root
      { dirs := [[]], files := [([specFilename], generateSpecData "u")] }
      emptyStore
      { dirs := [[], ["a"]], files := [(["a", specFilename], generateSpecData "v")] }
      "x" (generateSpecData "u") ⟨"u"⟩
      [{ Path := envRootStr ++ "/" ++ "a", Name := "a", URI := "v" }]
      (by decide) (by decide) (by decide) (by decide) (by decide) (by decide)⟩

/-- C5 counterexample: with a descriptor directly inside the root, List
emits the environments root itself, refuting that the root is never
emitted. -/
theorem C5_counterexample :
    GetEnvironments
        { dirs := [[]], files := [([specFilename], generateSpecData "u")] } =
      Except.ok [{ Path := envRootStr, Name := envRootStr, URI := "u" }] := by
  decide

/-- C6 (amended): for every valid name whose segments avoid the
reserved descriptor file name, Create on the fresh store produces every
intermediate directory, and the following List reports the full name
only: no environment is reported under the name of any proper leading
part, and among the created directories exactly the one holding a
descriptor file is emitted.  (As stated the claim fails: a nested name
with a segment equal to spec.json makes List fail instead, see the
counterexample.) -/
theorem C6_nested_name_listing (segs : List String) (uri S E K : String)
    (hv : validName segs = true) (hr : reservedFree segs = true) :
    ∃ l, GetEnvironments (CreateEnvironment emptyStore segs uri S E K).1 =
        Except.ok l ∧
      (∃ e ∈ l, e.Name = joinSegs segs) ∧
      (∀ k, k < segs.length → ∀ e ∈ l, e.Name ≠ joinSegs (segs.take k)) ∧
      (∀ q ∈ initsOf segs,
        (CreateEnvironment emptyStore segs uri S E K).1.isDir q = true ∧
        ((∃ e ∈ l, e.Path = nodeStr q) ↔
          (CreateEnvironment emptyStore segs uri S E K).1.isFile
            (q ++ [specFilename]) = true)) := by
  have hne := validName_ne_nil hv
  refine ⟨_, create_getEnvironments segs uri S E K hne hr,
    ⟨{ Path := nodeStr segs, Name := joinSegs segs, URI := uri }, by simp, rfl⟩,
    ?_, ?_⟩
  · intro k hk e he
    rw [List.mem_singleton] at he
    subst he
    show joinSegs segs ≠ joinSegs (segs.take k)
    exact fun h => joinSegs_take_ne hv k hk h.symm
  · intro q hq
    refine ⟨(create_isDir segs uri S E K q).mpr hq, ?_⟩
    by_cases hqs : q = segs
    · subst hqs
      constructor
      · intro _
        unfold FS.isFile
        rw [create_fileContent_spec]
        rfl
      · intro _
        exact ⟨{ Path := nodeStr q, Name := joinSegs q, URI := uri }, by simp, rfl⟩
    · constructor
      · rintro ⟨e, he, hpath⟩
        rw [List.mem_singleton] at he
        subst he
        exact absurd hpath (nodeStr_init_ne hv hq hqs)
      · intro hfile
        unfold FS.isFile at hfile
        rw [create_fileContent_none segs uri S E K _
          (init_append_ne hq hqs _ _) (init_append_ne hq hqs _ _)
          (init_append_ne hq hqs _ _) (init_append_ne hq hqs _ _)] at hfile
        simp at hfile

/-- C6 witness: the concrete nested name a/b/c. -/
theorem C6_witness :
    validName ["a", "b", "c"] = true ∧ reservedFree ["a", "b", "c"] = true ∧
    ∃ l, GetEnvironments (CreateEnvironment emptyStore ["a", "b", "c"]
        "u" "S" "E" "K").1 = Except.ok l ∧
      (∃ e ∈ l, e.Name = joinSegs ["a", "b", "c"]) ∧
      (∀ k, k < (["a", "b", "c"] : List String).length →
        ∀ e ∈ l, e.Name ≠ joinSegs ((["a", "b", "c"] : List String).take k)) ∧
      (∀ q ∈ initsOf ["a", "b", "c"],
        (CreateEnvironment emptyStore ["a", "b", "c"] "u" "S" "E" "K").1.isDir q
            = true ∧
        ((∃ e ∈ l, e.Path = nodeStr q) ↔
          (CreateEnvironment emptyStore ["a", "b", "c"] "u" "S" "E" "K").1.isFile
            (q ++ [specFilename]) = true)) :=
  ⟨by decide, by decide,
    C6_nested_name_listing ["a", "b", "c"] "u" "S" "E" "K" (by decide) (by decide)⟩

/-- C6 counterexample: the nested name x/spec.json is valid, yet List
does not report it (or anything): the walk fails on the directory named
spec.json. -/
theorem C6_counterexample :
    validName ["x", "spec.json"] = true ∧
    GetEnvironments (CreateEnvironment emptyStore ["x", "spec.json"]
        "u" "S" "E" "K").1 =
      Except.error "read spec.json: is a directory" :=
  ⟨by decide, by decide⟩

/-- C7: any node of the walk whose descriptor is unreadable or fails to
JSON-decode aborts the whole List call with an error; the Except result
carries no environment list at all, so no partial result is returned. -/
theorem C7_list_fail_fast (fs : FS) (p : List String)
    (hroot : fs.isDir [] = true) (hp : p ∈ fs.walkNodes)
    (hbad : descriptorOK fs p = false) :
    ∃ e, GetEnvironments fs = Except.error e :=
  getEnvironments_err fs hroot p hp hbad

/-- A store holding one undecodable descriptor, for the C7 witness. -/
def corruptStore : FS :=
  { dirs := [[], ["a"]], files := [(["a", specFilename], "oops")] }

/-- C7 witness: a concrete store with an undecodable descriptor. -/
theorem C7_witness :
    corruptStore.isDir [] = true ∧
    ["a"] ∈ corruptStore.walkNodes ∧
    descriptorOK corruptStore ["a"] = false ∧
    ∃ e, GetEnvironments corruptStore = Except.error e :=
  ⟨by decide, by decide, by decide,
    C7_list_fail_fast corruptStore ["a"] (by decide) (by decide) (by decide)⟩

/-- C8 (spec-modelled path mapper): a name with a dot-dot segment or an
absolute-path start is rejected by pathFor with ErrInvalidName, and the
guarded Create and Delete fail with that error before touching the
filesystem. -/
theorem C8_invalid_name_rejected (fs : FS) (name uri S E K : String)
    (h : strLead "/" name = true ∨ (splitOnSlash name).contains ".." = true) :
    pathFor name = Except.error "ErrInvalidName" ∧
    CreateEnvironmentChecked fs name uri S E K =
      Except.error "ErrInvalidName" ∧
    DeleteEnvironmentChecked fs name = Except.error "ErrInvalidName" := by
  have hp : pathFor name = Except.error "ErrInvalidName" := by
    unfold pathFor
    rcases h with h | h
    · simp [h]
    · by_cases h2 : strLead "/" name = true
      · simp [h2]
      · have h3 : strLead "/" name = false := by simpa using h2
        have h4 : (".." : String) ∈ splitOnSlash name := List.elem_iff.mp h
        simp [h3, h4]
  refine ⟨hp, ?_, ?_⟩
  · unfold CreateEnvironmentChecked
    rw [hp]
  · unfold DeleteEnvironmentChecked
    rw [hp]

/-- C8 witness: the concrete traversal name dot-dot-slash-x. -/
theorem C8_witness :
    (strLead "/" "../x" = true ∨ (splitOnSlash "../x").contains ".." = true) ∧
    (pathFor "../x" = Except.error "ErrInvalidName" ∧
      CreateEnvironmentChecked emptyStore "../x" "u" "S" "E" "K" =
        Except.error "ErrInvalidName" ∧
      DeleteEnvironmentChecked emptyStore "../x" =
        Except.error "ErrInvalidName") :=
  ⟨by decide,
    C8_invalid_name_rejected emptyStore "../x" "u" "S" "E" "K" (by decide)⟩

/-- C9: the descriptor written by Create is the two-space-indented JSON
object holding only the key uri, its encode followed by the decode List
performs recovers every uri string exactly (Unicode and punctuation
included), and unknown fields in a descriptor are ignored on read (a
concrete descriptor carrying an extra field still decodes to its uri). -/
theorem C9_descriptor_roundtrip (uri : String) :
    unmarshalEnvironmentSpec (generateSpecData uri) = Except.ok ⟨uri⟩ ∧
    generateSpecData uri = "\x7b\n  \"uri\": " ++ quoteJSON uri ++ "\n\x7d" ∧
    unmarshalEnvironmentSpec
        "\x7b\"uri\": \"u\", \"unknown\": [1, \x7b\"a\": true\x7d]\x7d" =
      Except.ok ⟨"u"⟩ :=
  ⟨unmarshal_generateSpecData uri, rfl, by decide⟩

/-- C10 (code bug): Delete is not crash-free: in a store holding one
environment, deleting it reaches the assignment to the nil path map and
panics at runtime instead of returning success or an error value. -/
theorem C10_delete_crashes :
    DeleteEnvironment (CreateEnvironment emptyStore ["x"] "u" "S" "E" "K").1 "x" =
      DeleteOutcome.panicked "assignment to entry in nil map"
        (CreateEnvironment emptyStore ["x"] "u" "S" "E" "K").1 := by
  decide

end Kubecfg
